import Mathlib

/-!
Verification of the repo-hygiene propagation utility (`propagate_style_guides.py`)
and its companion lint checks (`tests/test_import_dot.py`, `tests/test_init_files.py`).

File contents are modelled as `List Char` (the bytes of a text file, with `'\n'`
line terminators).  Python's text-file line iteration, `str.rstrip` / `str.strip`
(restricted to the ASCII whitespace characters), `str.replace` and substring
membership are given explicit executable definitions, and each Python function
relevant to the claims is translated into a Lean definition of the same name.
The filesystem, where several files matter at once, is an association list from
paths (component lists) to contents.
-/

set_option autoImplicit false

namespace Propagate

/-- File contents: the character sequence of a text file. -/
abbrev Content := List Char

/-- ASCII whitespace, as stripped by Python's `str.strip()` / `str.rstrip()`
(restricted to the ASCII range: space, tab, newline, carriage return,
vertical tab, form feed). -/
def isPySpace (c : Char) : Bool :=
  c = ' ' || c = '\t' || c = '\n' || c = '\r' || c = Char.ofNat 11 || c = Char.ofNat 12

/-- Python `line.rstrip()`: remove trailing whitespace. -/
def rstripLine (l : Content) : Content :=
  (l.reverse.dropWhile isPySpace).reverse

/-- Python `line.strip()`: remove leading and trailing whitespace. -/
def stripLine (l : Content) : Content :=
  rstripLine (l.dropWhile isPySpace)

/-- Split a character sequence at every `'\n'`; the result always has one more
segment than there are newlines, and no segment contains `'\n'`. -/
def splitNewlines : Content → List Content
  | [] => [[]]
  | c :: rest =>
    match splitNewlines rest with
    | [] => [[c]]
    | l :: ls => if c = '\n' then [] :: l :: ls else (c :: l) :: ls

/-- The lines of a file as Python's text iteration yields them, with the
newline stripped from each (`line.rstrip('\n')` / `str.splitlines` on
`'\n'`-separated text): every segment, except that a trailing empty segment
(present exactly when the file is empty or ends with a newline) is dropped. -/
def readLines (c : Content) : List Content :=
  let segs := splitNewlines c
  if segs.getLast? = some [] then segs.dropLast else segs

/-- Write a list of lines, terminating every line with `'\n'` (the rewrite
loops of the gitignore reconciler all write `line + '\n'`). -/
def joinNL (ls : List Content) : Content :=
  ls.foldr (fun l acc => l ++ '\n' :: acc) []

/-- Concatenate a list of character sequences (Python `''.join`). -/
def joinList (ls : List Content) : Content :=
  ls.foldr (fun l acc => l ++ acc) []

/-- Whether the file's final byte is a newline. -/
def endsNL (c : Content) : Bool :=
  c.getLast? = some '\n'

/-! ### Gitignore reconciliation (`propagate_style_guides.py`)

Each pass takes the current state of the `.gitignore` file (`none` = absent)
and returns its reported counts together with the state of the file after the
pass.  With `dry = true` no pass ever changes the state, mirroring the Python
code's skipped writes. -/

/-- `remove_gitignore_entries` (propagate_style_guides.py:526-567): drop every
line whose stripped content matches a stripped deprecated entry; rewrite
(right-stripping the surviving lines) only when at least one line was removed. -/
def remove_gitignore_entries (st : Option Content) (entries : List Content)
    (dry : Bool) : Nat × Option Content :=
  match st with
  | none => (0, none)
  | some s =>
    let lines := readLines s
    let eset := entries.map stripLine
    let removed := (lines.filter (fun l => stripLine l ∈ eset)).length
    let filtered := (lines.filter (fun l => ¬ stripLine l ∈ eset)).map rstripLine
    if removed = 0 then (0, some s)
    else if dry then (removed, some s)
    else (removed, some (joinNL filtered))

/-- The duplicate-dropping loop of `deduplicate_gitignore`
(propagate_style_guides.py:593-601): keep every blank line; keep a non-blank
line only when its value is not in the `seen` set, adding it to `seen`. -/
def dedup_unique (seen : List Content) : List Content → List Content
  | [] => []
  | l :: rest =>
    if l = [] then l :: dedup_unique seen rest
    else if l ∈ seen then dedup_unique seen rest
    else l :: dedup_unique (l :: seen) rest

/-- `deduplicate_gitignore` (propagate_style_guides.py:571-618): strip trailing
whitespace from every line, drop non-blank duplicates keeping the first
occurrence, rewrite only if something changed; reports
`(duplicates_removed, whitespace_cleaned)`. -/
def deduplicate_gitignore (st : Option Content) (dry : Bool) :
    (Nat × Bool) × Option Content :=
  match st with
  | none => ((0, false), none)
  | some s =>
    let original := readLines s
    let stripped := original.map rstripLine
    let uniqueLines := dedup_unique [] stripped
    let dups := stripped.length - uniqueLines.length
    let ws := (original.zip stripped).any (fun p => decide (p.1 ≠ p.2))
    if dups = 0 ∧ ws = false then ((0, false), some s)
    else if dry then ((dups, ws), some s)
    else ((dups, ws), some (joinNL uniqueLines))

/-- `ensure_gitignore_entries` (propagate_style_guides.py:622-667): compare the
required entries against the stripped existing lines; append the missing ones
at the end, first appending a newline when the existing non-empty file does not
end with one; create the file when absent.  Reports `(file_created, lines_added)`. -/
def ensure_gitignore_entries (st : Option Content) (entries : List Content)
    (dry : Bool) : (Bool × Nat) × Option Content :=
  let fileExists := st.isSome
  let existing := match st with
    | none => []
    | some s => (readLines s).map stripLine
  let missing := entries.filter (fun e => ¬ e ∈ existing)
  if missing = [] then ((false, 0), st)
  else if dry then ((!fileExists, missing.length), st)
  else
    let base := match st with
      | none => []
      | some s => s
    let base2 := if fileExists ∧ existing ≠ [] ∧ endsNL base = false
      then base ++ ['\n'] else base
    ((!fileExists, missing.length), some (base2 ++ joinNL missing))

/-- `DEPRECATED_GITIGNORE_ENTRIES` (propagate_style_guides.py:47-53). -/
def DEPRECATED_GITIGNORE_ENTRIES : List Content :=
  ["shebang_report.txt".data, "pyflakes.txt".data, "bandit.txt".data,
   "pyright.txt".data, "ascii_compliance.txt".data]

/-- `REQUIRED_GITIGNORE_ENTRIES` (propagate_style_guides.py:54-61). -/
def REQUIRED_GITIGNORE_ENTRIES : List Content :=
  ["report_shebang.txt".data, "report_pyflakes.txt".data,
   "report_ascii_compliance.txt".data, ".DS_Store".data,
   "report_bandit.txt".data, "report_pyright.txt".data]

/-- The eight counters reported by `process_gitignore`
(propagate_style_guides.py:855-934). -/
structure GitignoreCounts where
  created : Nat
  updated : Nat
  linesAdded : Nat
  cleaned : Nat
  dupRemoved : Nat
  whitespaceCleaned : Nat
  deprecatedRemovedFiles : Nat
  deprecatedRemovedEntries : Nat
deriving DecidableEq, Repr

/-- `process_gitignore` (propagate_style_guides.py:855-934) generalised over the
deprecated and required entry lists it passes to the two parameterised passes:
deprecated-entry removal, then deduplication, then required-entry insertion,
each pass reading the file state the previous pass left. -/
def process_gitignore_with (depr req : List Content) (st : Option Content)
    (dry : Bool) : GitignoreCounts × Option Content :=
  let r1 := remove_gitignore_entries st depr dry
  let deprecatedRemoved := r1.1
  let r2 := deduplicate_gitignore r1.2 dry
  let dups := r2.1.1
  let ws := r2.1.2
  let r3 := ensure_gitignore_entries r2.2 req dry
  let created := r3.1.1
  let linesAdded := r3.1.2
  ({ created := if created then 1 else 0,
     updated := if created = false ∧ 0 < linesAdded then 1 else 0,
     linesAdded := linesAdded,
     cleaned := if 0 < dups ∨ ws = true then 1 else 0,
     dupRemoved := dups,
     whitespaceCleaned := if ws then 1 else 0,
     deprecatedRemovedFiles := if 0 < deprecatedRemoved then 1 else 0,
     deprecatedRemovedEntries := deprecatedRemoved }, r3.2)

/-- `process_gitignore` with the module-level constant entry lists, exactly as
the Python function uses them. -/
def process_gitignore (st : Option Content) (dry : Bool) :
    GitignoreCounts × Option Content :=
  process_gitignore_with DEPRECATED_GITIGNORE_ENTRIES REQUIRED_GITIGNORE_ENTRIES st dry

/-- How `splitNewlines` distributes over concatenation: the last segment of the
left part fuses with the first segment of the right part. -/
def glueSplits (A B : List Content) : List Content :=
  match B with
  | [] => A
  | h :: t => A.dropLast ++ (A.getLastD [] ++ h) :: t

/-- The lines of an optional file (`none` = absent file, no lines). -/
def gitignoreLines (st : Option Content) : List Content :=
  match st with
  | none => []
  | some s => readLines s

/-- Specification-side restatement of the dedup rule, following the spec text:
walking the (already right-stripped) lines in order while remembering the list
`pre` of all earlier lines, a line is kept exactly when it is blank or its
value does not appear among the earlier lines. -/
def dedup_first_occurrence (pre : List Content) : List Content → List Content
  | [] => []
  | l :: rest =>
    if l = [] ∨ ¬ l ∈ pre then l :: dedup_first_occurrence (pre ++ [l]) rest
    else dedup_first_occurrence (pre ++ [l]) rest


/-! ### String helpers for the synchroniser and the agents maintainer -/

/-- Python `str.startswith` on filenames (character-list comparison, since the
built-in `String.startsWith` does not reduce in the kernel). -/
def strStartsWith (s pre : String) : Bool :=
  pre.data.isPrefixOf s.data

/-- Python `str.endswith` on filenames. -/
def strEndsWith (s suf : String) : Bool :=
  suf.data.isSuffixOf s.data

/-- Python substring membership `sub in l`. -/
def containsSub (sub : Content) : Content → Bool
  | [] => sub.isEmpty
  | c :: rest => sub.isPrefixOf (c :: rest) || containsSub sub rest

/-- Python `str.replace(pat, rep)`: replace every non-overlapping occurrence of
`pat`, scanning left to right (callers never pass an empty pattern). -/
def replaceSub (pat rep : Content) : Content → Content
  | [] => []
  | c :: rest =>
    if h : pat ≠ [] ∧ pat.isPrefixOf (c :: rest) then
      rep ++ replaceSub pat rep ((c :: rest).drop pat.length)
    else
      c :: replaceSub pat rep rest
termination_by l => l.length
decreasing_by
  · simp only [List.length_drop, List.length_cons]
    have : 0 < pat.length := List.length_pos.mpr h.1
    omega
  · simp

/-- Python `str.splitlines(keepends=True)` on `'\n'`-separated text: the
segments of `splitNewlines`, each non-final one with its newline re-attached,
and the final one kept only when non-empty. -/
def splitKeepEnds (c : Content) : List Content :=
  let segs := splitNewlines c
  (segs.dropLast.map (fun l => l ++ ['\n']))
    ++ (if segs.getLastD [] = [] then [] else [segs.getLastD []])

/-! ### Agent-instructions maintainer (`ensure_agents_coding_style`,
propagate_style_guides.py:252-399, and `build_agents_coding_style_block`,
propagate_style_guides.py:403-451) -/

/-- ASCII apostrophe, spelled via its code point. -/
def apos : Char := Char.ofNat 39

def python_line (p : Content) : Content :=
  "See Python coding style in ".data ++ p ++ ".\n".data

def markdown_line (p : Content) : Content :=
  "See Markdown style in ".data ++ p ++ ".\n".data

def repo_style_line (p : Content) : Content :=
  "See repo style in ".data ++ p ++ ".\n".data

def changelog_line : Content :=
  "When making edits, document them in docs/CHANGELOG.md.\n".data

def user_request_line : Content :=
  ("When in doubt, implement the changes the user asked for rather than waiting "
    ++ "for a response; the user is not the best reader and will likely miss your "
    ++ "request and then be confused why it was not implemented or fixed.\n").data

def tests_required_line : Content :=
  "When changing code always run tests, documentation does not require tests.\n".data

def tests_allowed_line : Content :=
  ("Agents may run programs in the tests folder, including smoke tests and "
    ++ "pyflakes/mypy runner scripts.\n").data

def environment_header_line : Content := "## Environment\n".data

def macos_python312_interpreter_line : Content :=
  "Codex must run Python using `/opt/homebrew/opt/python@3.12/bin/python3.12` (use Python 3.12 only).\nThis is only for Codex".data
    ++ [apos] ++ "s runtime, not a requirement for repo scripts.\n".data

def macos_site_packages_line : Content :=
  "On this user".data ++ [apos]
    ++ "s macOS (Homebrew Python 3.12), Python modules are installed to `/opt/homebrew/lib/python3.12/site-packages/`.\n".data

/-- The single-line variant of the interpreter note used when creating a fresh
AGENTS.md (`build_agents_coding_style_block`). -/
def macos_python312_interpreter_block_line : Content :=
  "Codex must run Python using `/opt/homebrew/opt/python@3.12/bin/python3.12` (use Python 3.12 only). This is only for Codex".data
    ++ [apos] ++ "s runtime, not a requirement for repo scripts.\n".data

/-- One stale-reference pass of `ensure_agents_coding_style` on one line
(propagate_style_guides.py:313-323): when the pass is active
(`desired_path != filename`) and the line mentions the bare filename but not
the desired path, rewrite in place; the boolean reports whether it fired. -/
def refPass (fn des l : Content) : Content × Bool :=
  if des = fn then (l, false)
  else if containsSub fn l && !(containsSub des l) then (replaceSub fn des l, true)
  else (l, false)

/-- The CHANGELOG.md reference pass (propagate_style_guides.py:325-327). -/
def chgPass (l : Content) : Content × Bool :=
  if containsSub "CHANGELOG.md".data l && !(containsSub "docs/CHANGELOG.md".data l)
  then (replaceSub "CHANGELOG.md".data "docs/CHANGELOG.md".data l, true)
  else (l, false)

/-- All four in-place reference passes applied to one line, in source order. -/
def agentsRewriteLine (p m r l : Content) : Content :=
  (chgPass ((refPass "REPO_STYLE.md".data r
    ((refPass "MARKDOWN_STYLE.md".data m
      ((refPass "PYTHON_STYLE.md".data p l).1)).1)).1)).1

/-- Whether any of the four reference passes fired on any line (the `changed`
flag accumulated by the two rewrite loops). -/
def agentsRewriteChanged (p m r : Content) (ls : List Content) : Bool :=
  ls.any (fun l => (refPass "PYTHON_STYLE.md".data p l).2)
  || (ls.map (fun l => (refPass "PYTHON_STYLE.md".data p l).1)).any
      (fun l => (refPass "MARKDOWN_STYLE.md".data m l).2)
  || (ls.map (fun l => (refPass "MARKDOWN_STYLE.md".data m
        ((refPass "PYTHON_STYLE.md".data p l).1)).1)).any
      (fun l => (refPass "REPO_STYLE.md".data r l).2)
  || (ls.map (fun l => (refPass "REPO_STYLE.md".data r
        ((refPass "MARKDOWN_STYLE.md".data m
          ((refPass "PYTHON_STYLE.md".data p l).1)).1)).1)).any
      (fun l => (chgPass l).2)

/-- `insert_after_environment_header` (propagate_style_guides.py:305-310):
insert the given lines immediately after the first line whose stripped content
is `## Environment`; `none` when no such line exists. -/
def insert_after_environment_header (ins : List Content) : List Content → Option (List Content)
  | [] => none
  | l :: rest =>
    if stripLine l = "## Environment".data then some (l :: (ins ++ rest))
    else
      match insert_after_environment_header ins rest with
      | none => none
      | some r => some (l :: r)

/-- The `lines_to_add` block built from substring-presence checks on the
rewritten content (propagate_style_guides.py:332-366). -/
def agentsLinesToAdd (p m r updated : Content) : List Content :=
  (if !(containsSub "## Coding Style".data updated) then ["## Coding Style\n".data] else [])
  ++ (if !(containsSub "PYTHON_STYLE.md".data updated) then [python_line p] else [])
  ++ (if !(containsSub "MARKDOWN_STYLE.md".data updated) then [markdown_line m] else [])
  ++ (if !(containsSub "REPO_STYLE.md".data updated) then [repo_style_line r] else [])
  ++ (if !(containsSub "docs/CHANGELOG.md".data updated) then [changelog_line] else [])
  ++ (if !(containsSub "When in doubt, implement the changes the user asked for".data updated)
      then [user_request_line] else [])
  ++ (if !(containsSub "When changing code always run tests".data updated)
      then [tests_required_line] else [])
  ++ (if !(containsSub "Agents may run programs in the tests folder".data updated)
      then [tests_allowed_line] else [])

/-- The missing environment lines (propagate_style_guides.py:368-372). -/
def agentsEnvLines (updated : Content) (isMacos : Bool) : List Content :=
  (if isMacos && !(containsSub "/opt/homebrew/opt/python@3.12/bin/python3.12".data updated)
    then [macos_python312_interpreter_line] else [])
  ++ (if isMacos && !(containsSub "/opt/homebrew/lib/python3.12/site-packages/".data updated)
    then [macos_site_packages_line] else [])

/-- `ensure_agents_coding_style` (propagate_style_guides.py:252-399): rewrite
stale references line by line, append missing guidance lines at the end
(ensuring a trailing newline first), and insert missing environment lines
after an existing `## Environment` header.  Returns the modified flag and the
content the call leaves on disk (the original content when it does not
write). -/
def ensure_agents_coding_style (content p m r : Content) (isMacos dry : Bool) :
    Bool × Content :=
  let lines0 := splitKeepEnds content
  let lines1 := lines0.map (agentsRewriteLine p m r)
  let changed := agentsRewriteChanged p m r lines0
  let updated := joinList lines1
  let linesToAdd := agentsLinesToAdd p m r updated
  let envLines := agentsEnvLines updated isMacos
  let hasEnvHeader := containsSub "## Environment".data updated
  let step :=
    if envLines ≠ [] then
      if hasEnvHeader then
        match insert_after_environment_header envLines lines1 with
        | some r2 => (r2, true, linesToAdd)
        | none => (lines1, changed, linesToAdd)
      else (lines1, changed,
        linesToAdd ++ ["\n".data, environment_header_line] ++ envLines)
    else (lines1, changed, linesToAdd)
  let linesFinal := step.1
  let changedFinal := step.2.1
  let linesToAddFinal := step.2.2
  if linesToAddFinal = [] ∧ changedFinal = false then (false, content)
  else
    let updated2 := joinList linesFinal
    let needsNewline := 0 < updated2.length ∧ endsNL updated2 = false
    if dry then (true, content)
    else if linesToAddFinal ≠ [] then
      (true, updated2 ++ (if needsNewline then ['\n'] else []) ++ joinList linesToAddFinal)
    else (true, updated2)

/-- `build_agents_coding_style_block` (propagate_style_guides.py:403-451). -/
def build_agents_coding_style_block (p m r : Content) (isMacos : Bool) : Content :=
  joinList
    (["## Coding Style\n".data, python_line p, markdown_line m, repo_style_line r,
      changelog_line, user_request_line, tests_required_line, tests_allowed_line]
      ++ (if isMacos then
            ["\n".data, environment_header_line,
             macos_python312_interpreter_block_line, macos_site_packages_line]
          else []))

/-! ### Filesystem model and the file synchroniser (`main`,
propagate_style_guides.py:1044-1573) -/

/-- A path, as its component list from the filesystem root. -/
abbrev FPath := List String

/-- The filesystem: an association list from (canonical) paths to file
contents; the first binding of a path is its content. -/
abbrev FS := List (FPath × Content)

def fsRead (fs : FS) (p : FPath) : Option Content :=
  (fs.find? (fun e => decide (e.1 = p))).map Prod.snd

def fsWrite (fs : FS) (p : FPath) (c : Content) : FS :=
  (p, c) :: fs.filter (fun e => decide (¬ e.1 = p))

def fsRemove (fs : FS) (p : FPath) : FS :=
  fs.filter (fun e => decide (¬ e.1 = p))

def fsIsFile (fs : FS) (p : FPath) : Bool :=
  (fsRead fs p).isSome

/-- `SKIP_WALK_DIRS` (propagate_style_guides.py:62-74). -/
def SKIP_WALK_DIRS : List String :=
  [".git", ".mypy_cache", ".pytest_cache", "old_shell_folder", ".venv", ".system",
   "__pycache__", "build", "dist", "node_modules", "venv"]

/-- Whether `os.walk` descends into a directory component: the walks in
`repo_has_pyproject_toml` / `repo_has_python_files` prune `SKIP_WALK_DIRS`
and dot-directories (propagate_style_guides.py:681-685, 702-706). -/
def walkDirOk (d : String) : Bool :=
  decide (¬ d ∈ SKIP_WALK_DIRS) && !(strStartsWith d ".")

/-- A file at path `p` is reached by the pruned walk rooted at `repo` when it
lies strictly below `repo` and every intermediate directory is descended. -/
def walkVisible (repo p : FPath) : Bool :=
  repo.isPrefixOf p && decide (repo.length < p.length)
    && ((p.drop repo.length).dropLast.all walkDirOk)

def pathBase (p : FPath) : String := p.getLastD ""

/-- `repo_has_python_files` (propagate_style_guides.py:692-710). -/
def repo_has_python_files (repo : FPath) (fs : FS) : Bool :=
  fs.any (fun e => walkVisible repo e.1 && strEndsWith (pathBase e.1) ".py")

/-- `repo_has_pyproject_toml` (propagate_style_guides.py:671-688). -/
def repo_has_pyproject_toml (repo : FPath) (fs : FS) : Bool :=
  fs.any (fun e => walkVisible repo e.1 && decide (pathBase e.1 = "pyproject.toml"))

/-- The outcome of one per-file synchronisation step, as `main` classifies and
counts it (the repeated block at propagate_style_guides.py:1146-1277; `err` is
a caught per-file I/O failure, here a missing source file). -/
inductive SyncOutcome where
  | skipSource
  | skipSame
  | copied
  | updated
  | err
  | skipNoPython
  | skipNoPyproject
deriving DecidableEq, Repr

/-- One per-file synchronisation step: skip when the destination path is the
resolved source path; otherwise compare contents byte for byte
(`filecmp.cmp(..., shallow=False)`) and copy (`shutil.copy2`) when absent or
differing; a comparison or copy against a missing source raises and is caught
as `err`.  `dry = true` reports the same outcome without writing. -/
def sync_file (dry : Bool) (fs : FS) (src dst : FPath) : SyncOutcome × FS :=
  if dst = src then (.skipSource, fs)
  else
    match fsRead fs src, fsRead fs dst with
    | none, _ => (.err, fs)
    | some sc, some dc =>
      if sc = dc then (.skipSame, fs)
      else (.updated, if dry then fs else fsWrite fs dst sc)
    | some sc, none => (.copied, if dry then fs else fsWrite fs dst sc)

/-- One synchronisation loop over a file class: each file is first run through
the class gate (the `skip ... no python` / `no pyproject.toml` tests), then
synchronised; outcomes are recorded per file and caught errors are counted
exactly as `counts['errors'] += 1` in the per-file `except` blocks. -/
def syncFold (dry : Bool) (gate : FS → String → Option SyncOutcome)
    (dest : String → FPath) (pairs : List (String × FPath)) (fs : FS) :
    List (String × SyncOutcome) × FS × Nat :=
  match pairs with
  | [] => ([], fs, 0)
  | (f, src) :: rest =>
    match gate fs f with
    | some o =>
      let r := syncFold dry gate dest rest fs
      ((f, o) :: r.1, r.2.1, r.2.2)
    | none =>
      let s := sync_file dry fs src (dest f)
      let r := syncFold dry gate dest rest s.2
      ((f, s.1) :: r.1, r.2.1, (if s.1 = .err then 1 else 0) + r.2.2)

/-- The classification `sync_file` reports, as a function of the filesystem it
reads (no write happens before the classification is decided). -/
def syncOutcomePure (fs : FS) (src dst : FPath) : SyncOutcome :=
  if dst = src then .skipSource
  else
    match fsRead fs src, fsRead fs dst with
    | none, _ => .err
    | some sc, some dc => if sc = dc then .skipSame else .updated
    | some _, none => .copied

/-- Number of files classified with a given outcome. -/
def countO (o : SyncOutcome) (l : List (String × SyncOutcome)) : Nat :=
  (l.filter (fun e => decide (e.2 = o))).length

/-- `STYLE_FILES` (propagate_style_guides.py:21-26). -/
def STYLE_FILES : List String :=
  ["PYTHON_STYLE.md", "MARKDOWN_STYLE.md", "REPO_STYLE.md", "AUTHORS.md"]

/-- `DEVEL_SCRIPTS` (propagate_style_guides.py:27-30). -/
def DEVEL_SCRIPTS : List String :=
  ["commit_changelog.py", "submit_to_pypi.py"]

/-- `TEST_SCRIPTS` (propagate_style_guides.py:31-39). -/
def TEST_SCRIPTS : List String :=
  ["check_ascii_compliance.py", "fix_ascii_compliance.py", "fix_whitespace.py",
   "git_file_utils.py", "pyrightconfig.json", "test_import_requirements.py",
   "test_import_star.py"]

/-- `DEPRECATED_TEST_SCRIPTS` (propagate_style_guides.py:40-46). -/
def DEPRECATED_TEST_SCRIPTS : List String :=
  ["run_ascii_compliance.sh", "run_pyflakes.sh", "run_ascii_compliance.py",
   "test_repo_hygiene.py", "test_pyflakes.py"]

def styleDest (repo : FPath) (f : String) : FPath := repo ++ ["docs", f]

def testDest (repo : FPath) (f : String) : FPath := repo ++ ["tests", f]

def develDest (repo : FPath) (f : String) : FPath := repo ++ ["devel", f]

def conftestPath (repo : FPath) : FPath := repo ++ ["tests", "conftest.py"]

def changelogPath (repo : FPath) : FPath := repo ++ ["docs", "CHANGELOG.md"]

def gitignorePath (repo : FPath) : FPath := repo ++ [".gitignore"]

def agentsPath (repo : FPath) : FPath := repo ++ ["AGENTS.md"]

/-- `is_repo_dir` (propagate_style_guides.py:165-175): presence of a `.git`
entry, here witnessed by any file under `repo/.git`. -/
def is_repo_dir (repo : FPath) (fs : FS) : Bool :=
  fs.any (fun e => (repo ++ [".git"]).isPrefixOf e.1)

/-- The `.gitignore` step of the per-repo loop: run `process_gitignore` on the
file at `repo/.gitignore` and put the resulting state back. -/
def processGitignoreFS (repo : FPath) (dry : Bool) (fs : FS) : GitignoreCounts × FS :=
  let g := process_gitignore (fsRead fs (gitignorePath repo)) dry
  (g.1,
    if dry then fs
    else
      match g.2 with
      | none => fs
      | some c => fsWrite fs (gitignorePath repo) c)

/-- The conftest step (propagate_style_guides.py:1120-1128): create an empty
`tests/conftest.py` when missing. -/
def conftestStep (repo : FPath) (dry : Bool) (fs : FS) : FS × Nat :=
  if fsIsFile fs (conftestPath repo) then (fs, 0)
  else (if dry then fs else fsWrite fs (conftestPath repo) [], 1)

/-- `remove_deprecated_tests` (propagate_style_guides.py:938-953). -/
def removeDeprecatedTestsFS (repo : FPath) (dry : Bool) (fs : FS) : FS × Nat :=
  DEPRECATED_TEST_SCRIPTS.foldl
    (fun acc n =>
      if fsIsFile acc.1 (testDest repo n) then
        ((if dry then acc.1 else fsRemove acc.1 (testDest repo n)), acc.2 + 1)
      else acc)
    (fs, 0)

/-- `ensure_changelog_file` (propagate_style_guides.py:483-502) at
`repo/docs/CHANGELOG.md`. -/
def changelogStep (repo : FPath) (dry : Bool) (fs : FS) : FS × Nat :=
  if fsIsFile fs (changelogPath repo) then (fs, 0)
  else (if dry then fs else fsWrite fs (changelogPath repo) [], 1)

/-- The AGENTS.md step (`ensure_agents_file`, propagate_style_guides.py:455-479,
called from main at 1279-1306, with the style paths resolved to
`docs/<name>`). -/
def agentsStep (repo : FPath) (isMacos dry : Bool) (fs : FS) : FS :=
  match fsRead fs (agentsPath repo) with
  | none =>
    if dry then fs
    else fsWrite fs (agentsPath repo)
      (build_agents_coding_style_block "docs/PYTHON_STYLE.md".data
        "docs/MARKDOWN_STYLE.md".data "docs/REPO_STYLE.md".data isMacos)
  | some c =>
    let e := ensure_agents_coding_style c "docs/PYTHON_STYLE.md".data
      "docs/MARKDOWN_STYLE.md".data "docs/REPO_STYLE.md".data isMacos dry
    if e.1 && !dry then fsWrite fs (agentsPath repo) e.2 else fs

/-- The results of processing one repo. -/
structure RepoResult where
  giCounts : GitignoreCounts
  styleOut : List (String × SyncOutcome)
  testOut : List (String × SyncOutcome)
  develOut : List (String × SyncOutcome)
  errors : Nat
  fs : FS

/-- The per-repo body of `main` (propagate_style_guides.py:1078-1306), for the
content-level filesystem state: gitignore reconciliation, conftest creation,
deprecated-test removal, changelog creation, the three synchronisation loops
(styles into `docs/`, test scripts into `tests/` gated on
`repo_has_python_files` — computed only after the conftest step — and devel
scripts into `devel/` with `submit_to_pypi.py` gated on
`repo_has_pyproject_toml`), and finally the AGENTS.md step.  Directory
creation and `chmod` affect no file content and are not represented. -/
def processRepo (repo : FPath) (stylePairs testPairs develPairs : List (String × FPath))
    (isMacos dry : Bool) (fs : FS) : RepoResult :=
  let g := processGitignoreFS repo dry fs
  let fs1 := g.2
  let fs2 := (conftestStep repo dry fs1).1
  let fs3 := (removeDeprecatedTestsFS repo dry fs2).1
  let fs4 := (changelogStep repo dry fs3).1
  let rs := syncFold dry (fun _ _ => none) (styleDest repo) stylePairs fs4
  let repoPy := repo_has_python_files repo rs.2.1
  let rt := syncFold dry
    (fun _ f =>
      if strStartsWith f "test_" && strEndsWith f ".py" && !repoPy
      then some .skipNoPython else none)
    (testDest repo) testPairs rs.2.1
  let rd := syncFold dry
    (fun fsc f =>
      if decide (f = "submit_to_pypi.py") && !(repo_has_pyproject_toml repo fsc)
      then some .skipNoPyproject else none)
    (develDest repo) develPairs rt.2.1
  let fs5 := agentsStep repo isMacos dry rd.2.1
  { giCounts := g.1, styleOut := rs.1, testOut := rt.1, develOut := rd.1,
    errors := rs.2.2 + rt.2.2 + rd.2.2, fs := fs5 }

/-- The repo loop of `main` (propagate_style_guides.py:1078-1081): directories
without version-control metadata are counted as skipped and left untouched;
every other repo is processed in order, the summary being printed from the
accumulated counters afterwards. -/
def processRepos (repos : List FPath)
    (stylePairs testPairs develPairs : List (String × FPath))
    (isMacos dry : Bool) (fs : FS) : List (FPath × Option RepoResult) × FS :=
  match repos with
  | [] => ([], fs)
  | repo :: rest =>
    if is_repo_dir repo fs then
      let r := processRepo repo stylePairs testPairs develPairs isMacos dry fs
      let rec2 := processRepos rest stylePairs testPairs develPairs isMacos dry r.fs
      ((repo, some r) :: rec2.1, rec2.2)
    else
      let rec2 := processRepos rest stylePairs testPairs develPairs isMacos dry fs
      ((repo, none) :: rec2.1, rec2.2)

/-! Concrete fixtures: a one-directory repository and an external source tree
holding every style file, one test script and both devel scripts. -/

def C2repo : FPath := ["r"]

def C2sp : List (String × FPath) := STYLE_FILES.map (fun f => (f, ["srcdir", f]))

def C2tp : List (String × FPath) := [("test_alpha.py", ["srcdir", "test_alpha.py"])]

def C2dp : List (String × FPath) := DEVEL_SCRIPTS.map (fun f => (f, ["srcdir", f]))

def C2fs : FS := (C2sp ++ C2tp ++ C2dp).map (fun pr => (pr.2, ['x']))

/-! ### The `__init__.py` shape checker (src/tests/test_init_files.py).
The Python parser itself is out of scope: a parse is given as an input, either
a `SyntaxError` line number or the list of top-level body statements. -/

/-- A top-level statement of a parsed `__init__.py`, carrying the shape
distinctions the checker tests with `isinstance` and its `lineno`:
`ast.Expr` (with whether its value is a string `ast.Constant`),
`ast.Import`/`ast.ImportFrom`, `ast.FunctionDef`/`ast.AsyncFunctionDef`/
`ast.ClassDef`, `ast.Assign`/`ast.AnnAssign`/`ast.AugAssign` (each direct
`ast.Name` target as `some` of its id, any other target shape as `none`),
`ast.If`, and any other statement. -/
inductive PyStmt where
  | exprStmt (line : Nat) (isStrConst : Bool)
  | importStmt (line : Nat)
  | defStmt (line : Nat)
  | assignStmt (line : Nat) (targets : List (Option String))
  | ifStmt (line : Nat)
  | otherStmt (line : Nat)
deriving DecidableEq, Repr, Inhabited

def stmtLine : PyStmt → Nat
  | .exprStmt l _ => l
  | .importStmt l => l
  | .defStmt l => l
  | .assignStmt l _ => l
  | .ifStmt l => l
  | .otherStmt l => l

/-- `getattr(node, "lineno", 1) or 1` (test_init_files.py:160,171): a missing
line number defaults to 1 and a falsy (0) one is replaced by 1. -/
def pyLine (n : Nat) : Nat := if n = 0 then 1 else n

/-- `count_substantive_lines` (test_init_files.py:89-101): non-empty,
non-comment lines. -/
def count_substantive_lines (source : Content) : Nat :=
  ((splitNewlines source).filter (fun line =>
    let stripped := stripLine line
    !stripped.isEmpty && !(['#'].isPrefixOf stripped))).length

/-- `should_check_file` (test_init_files.py:105-113): at least 20 substantive
lines, or at least 100 characters after stripping. -/
def should_check_file (source : Content) : Bool :=
  if count_substantive_lines source ≥ 20 then true
  else if (stripLine source).length ≥ 100 then true
  else false

/-- `is_module_docstring` (test_init_files.py:117-126): an `ast.Expr` node
whose value is a string `ast.Constant`. -/
def is_module_docstring : PyStmt → Bool
  | .exprStmt _ isStrConst => isStrConst
  | _ => false

/-- `extract_target_names` (test_init_files.py:130-146): the ids of the
direct `ast.Name` assignment targets. -/
def extract_target_names : PyStmt → List String
  | .assignStmt _ targets => targets.filterMap id
  | _ => []

def MSG_SYNERR : String := "syntax error in __init__.py"

def MSG_IMPORTS : String := "imports are not allowed in __init__.py"

def MSG_DEFS : String := "definitions are not allowed in __init__.py"

def MSG_VERSION : String := "__version__ must not be assigned in __init__.py"

def MSG_ALL : String := "__all__ is not allowed in __init__.py"

def MSG_EXPORTS : String := "manual export lists are not allowed in __init__.py"

def MSG_MAPS : String := "function/class maps are not allowed in __init__.py"

def MSG_GLOBAL : String := "global assignments are not allowed in __init__.py"

def MSG_COND : String := "conditional logic is not allowed in __init__.py"

def MSG_IMPL : String := "implementation code is not allowed in __init__.py"

/-- One iteration of the `for node in body` loop of `find_init_issues`
(test_init_files.py:168-197): docstrings are skipped, every other statement
appends exactly one issue at its (defaulted) line. -/
def initStep (issues : List (Nat × String)) (node : PyStmt) : List (Nat × String) :=
  if is_module_docstring node then issues
  else
    let line_no := pyLine (stmtLine node)
    match node with
    | .importStmt _ => issues ++ [(line_no, MSG_IMPORTS)]
    | .defStmt _ => issues ++ [(line_no, MSG_DEFS)]
    | .assignStmt _ _ =>
      let target_names := extract_target_names node
      if target_names.contains "__version__" then issues ++ [(line_no, MSG_VERSION)]
      else if target_names.contains "__all__" then issues ++ [(line_no, MSG_ALL)]
      else if target_names.any
          (fun name => containsSub "EXPORTED_MODULES".data name.data) then
        issues ++ [(line_no, MSG_EXPORTS)]
      else if target_names.any (fun name => strEndsWith name "_MAP") then
        issues ++ [(line_no, MSG_MAPS)]
      else issues ++ [(line_no, MSG_GLOBAL)]
    | .ifStmt _ => issues ++ [(line_no, MSG_COND)]
    | .exprStmt _ _ => issues ++ [(line_no, MSG_IMPL)]
    | .otherStmt _ => issues ++ [(line_no, MSG_IMPL)]

/-- `find_init_issues` (test_init_files.py:150-198) on the file content and a
given parse: small files are skipped, a syntax error is one finding, an empty
body or a lone module docstring is clean, and otherwise every non-docstring
top-level statement is classified. -/
def find_init_issues (source : Content) (parsed : Except Nat (List PyStmt)) :
    List (Nat × String) :=
  if !(should_check_file source) then []
  else
    match parsed with
    | .error line_no => [(pyLine line_no, MSG_SYNERR)]
    | .ok body =>
      if body.isEmpty then []
      else if body.length == 1 && is_module_docstring body.headI then []
      else body.foldl initStep []

/-- Specification-side classification of one top-level statement: `none` for a
string-literal expression anywhere in the file, `some` finding otherwise.
Stated from the spec sentence for C10 and compared with the loop above. -/
def classifyInitStmt (node : PyStmt) : Option (Nat × String) :=
  if is_module_docstring node then none
  else
    let line_no := pyLine (stmtLine node)
    match node with
    | .importStmt _ => some (line_no, MSG_IMPORTS)
    | .defStmt _ => some (line_no, MSG_DEFS)
    | .assignStmt _ _ =>
      let target_names := extract_target_names node
      if target_names.contains "__version__" then some (line_no, MSG_VERSION)
      else if target_names.contains "__all__" then some (line_no, MSG_ALL)
      else if target_names.any
          (fun name => containsSub "EXPORTED_MODULES".data name.data) then
        some (line_no, MSG_EXPORTS)
      else if target_names.any (fun name => strEndsWith name "_MAP") then
        some (line_no, MSG_MAPS)
      else some (line_no, MSG_GLOBAL)
    | .ifStmt _ => some (line_no, MSG_COND)
    | .exprStmt _ _ => some (line_no, MSG_IMPL)
    | .otherStmt _ => some (line_no, MSG_IMPL)

/-! ### The relative-import detector (src/tests/test_import_dot.py). -/

/-- An `ast.ImportFrom` node as `find_relative_imports` reads it: `lineno`
(`or 0` turns a missing or falsy value into 0), relative `level`, and the
optional `module` name (`node.module or ""` turns `None` into the empty
string). -/
structure ImportFromNode where
  line : Nat
  level : Nat
  module : Option String
deriving DecidableEq, Repr

/-- One node of the `ast.walk` traversal: an `ast.ImportFrom`, or any other
node (skipped by the `isinstance` test). -/
inductive AstNode where
  | importFrom (n : ImportFromNode)
  | otherNode
deriving DecidableEq, Repr

/-- One iteration of the walk loop of `find_relative_imports`
(test_import_dot.py:97-105). -/
def relStep (found : List (Nat × String)) (node : AstNode) : List (Nat × String) :=
  match node with
  | .otherNode => found
  | .importFrom n =>
    if n.level ≤ 0 then found
    else
      let line_no := n.line
      let module_name := match n.module with | none => "" | some m => m
      let import_root := String.mk (List.replicate n.level '.') ++ module_name
      found ++ [(line_no, import_root)]

/-- `find_relative_imports` (test_import_dot.py:87-106) on a given parse:
`none` models a `SyntaxError` (no findings), `some nodes` the `ast.walk`
order of the parsed tree. -/
def find_relative_imports (parsed : Option (List AstNode)) : List (Nat × String) :=
  match parsed with
  | none => []
  | some nodes => nodes.foldl relStep []

/-- Specification-side classification for C8: exactly the from-imports with
level greater than zero are flagged, with line number and the reconstructed
dotted reference. -/
def relClassify (node : AstNode) : Option (Nat × String) :=
  match node with
  | .otherNode => none
  | .importFrom n =>
    if 0 < n.level then
      some (n.line, String.mk (List.replicate n.level '.')
        ++ (match n.module with | none => "" | some m => m))
    else none

/-- Fixture sources for the checker claims: 120 non-blank characters, above
the 100-character threshold. -/
def C7src : Content := List.replicate 120 'v'

def C10src : Content := List.replicate 130 'w'

/-- An AGENTS.md that already satisfies every check of
`ensure_agents_coding_style` when the style paths are the bare filenames and
the platform is not macOS. -/
def C9content : Content :=
  ("## Coding Style\nPYTHON_STYLE.md MARKDOWN_STYLE.md REPO_STYLE.md docs/CHANGELOG.md\n"
    ++ "When in doubt, implement the changes the user asked for\n"
    ++ "When changing code always run tests\n"
    ++ "Agents may run programs in the tests folder\n").data


end Propagate

/-! ## Lemmas about the text model -/

namespace Propagate

theorem splitNewlines_ne_nil (c : Content) : splitNewlines c ≠ [] := by
  induction c with
  | nil => simp [splitNewlines]
  | cons x rest ih =>
    cases h : splitNewlines rest with
    | nil => simp [splitNewlines, h]
    | cons l ls =>
      simp only [splitNewlines, h]
      split <;> simp

theorem splitNewlines_cons (c : Char) (rest : Content) :
    splitNewlines (c :: rest)
      = (match splitNewlines rest with
         | [] => [[c]]
         | l :: ls => if c = '\n' then [] :: l :: ls else (c :: l) :: ls) := rfl

theorem splitNewlines_append (a b : Content) :
    splitNewlines (a ++ b) = glueSplits (splitNewlines a) (splitNewlines b) := by
  induction a with
  | nil =>
    cases hb : splitNewlines b with
    | nil => exact absurd hb (splitNewlines_ne_nil b)
    | cons h t => simp [splitNewlines, glueSplits, hb]
  | cons c rest ih =>
    cases hb : splitNewlines b with
    | nil => exact absurd hb (splitNewlines_ne_nil b)
    | cons h t =>
      cases hr : splitNewlines rest with
      | nil => exact absurd hr (splitNewlines_ne_nil rest)
      | cons r rs =>
        rw [List.cons_append, splitNewlines_cons, ih, hb, hr]
        rw [splitNewlines_cons c rest, hr]
        by_cases hc : c = '\n'
        · cases rs with
          | nil => simp [glueSplits, hc]
          | cons r2 rs2 => simp [glueSplits, hc, List.dropLast_cons₂]
        · cases rs with
          | nil => simp [glueSplits, hc]
          | cons r2 rs2 => simp [glueSplits, hc, List.dropLast_cons₂]

theorem splitNewlines_noNL : ∀ (c : Content), ∀ seg ∈ splitNewlines c, '\n' ∉ seg := by
  intro c
  induction c with
  | nil =>
    intro seg hseg
    simp [splitNewlines] at hseg
    simp [hseg]
  | cons x rest ih =>
    intro seg hseg
    cases hr : splitNewlines rest with
    | nil => exact absurd hr (splitNewlines_ne_nil rest)
    | cons l ls =>
      simp only [splitNewlines_cons, hr] at hseg
      by_cases hx : x = '\n'
      · rw [if_pos hx] at hseg
        rcases List.mem_cons.mp hseg with h1 | h1
        · subst h1
          simp
        · exact ih seg (by rw [hr]; exact h1)
      · rw [if_neg hx] at hseg
        rcases List.mem_cons.mp hseg with h1 | h1
        · subst h1
          intro hmem
          rcases List.mem_cons.mp hmem with h2 | h2
          · exact hx h2.symm
          · exact ih l (by rw [hr]; exact List.mem_cons_self l ls) h2
        · exact ih seg (by rw [hr]; exact List.mem_cons_of_mem l h1)

theorem splitNewlines_of_noNL {l : Content} (h : '\n' ∉ l) : splitNewlines l = [l] := by
  induction l with
  | nil => simp [splitNewlines]
  | cons c rest ih =>
    have hc : c ≠ '\n' := fun hc => h (hc ▸ List.mem_cons_self c rest)
    have hrest : '\n' ∉ rest := fun hm => h (List.mem_cons_of_mem c hm)
    rw [splitNewlines_cons, ih hrest]
    simp [hc]

theorem splitNewlines_joinNL {m : List Content} (hm : ∀ l ∈ m, '\n' ∉ l) :
    splitNewlines (joinNL m) = m ++ [[]] := by
  induction m with
  | nil => simp [joinNL, splitNewlines]
  | cons l ms ih =>
    have hjoin : joinNL (l :: ms) = l ++ '\n' :: joinNL ms := rfl
    rw [hjoin, splitNewlines_append, splitNewlines_of_noNL (hm l (List.mem_cons_self l ms))]
    have hnl : splitNewlines ('\n' :: joinNL ms) = [] :: splitNewlines (joinNL ms) := by
      cases hj : splitNewlines (joinNL ms) with
      | nil => exact absurd hj (splitNewlines_ne_nil _)
      | cons x xs => simp [splitNewlines_cons, hj]
    rw [hnl, ih (fun l2 hl => hm l2 (List.mem_cons_of_mem _ hl))]
    simp [glueSplits]

theorem readLines_of_splitNewlines_concat {X : Content} {A : List Content}
    (h : splitNewlines X = A ++ [[]]) : readLines X = A := by
  rw [readLines, h]
  simp [List.getLast?_concat]

theorem readLines_joinNL {m : List Content} (hm : ∀ l ∈ m, '\n' ∉ l) :
    readLines (joinNL m) = m :=
  readLines_of_splitNewlines_concat (splitNewlines_joinNL hm)

theorem dropLast_append_getLastD {α : Type} (A : List α) (hA : A ≠ []) (d : α) :
    A.dropLast ++ [A.getLastD d] = A := by
  have := List.dropLast_append_getLast hA
  rwa [List.getLastD_eq_getLast?, List.getLast?_eq_getLast _ hA]

theorem splitNewlines_concat_nl (s : Content) :
    splitNewlines (s ++ ['\n']) = splitNewlines s ++ [[]] := by
  rw [splitNewlines_append]
  rw [show splitNewlines ['\n'] = [[], []] from rfl]
  simp only [glueSplits, List.append_nil]
  rw [show ((splitNewlines s).getLastD []) :: ([[]] : List Content)
      = [(splitNewlines s).getLastD []] ++ [[]] from rfl]
  rw [← List.append_assoc, dropLast_append_getLastD _ (splitNewlines_ne_nil s)]

theorem splitNewlines_concat_other {s : Content} {c : Char} (hc : c ≠ '\n') :
    splitNewlines (s ++ [c])
      = (splitNewlines s).dropLast ++ [(splitNewlines s).getLastD [] ++ [c]] := by
  rw [splitNewlines_append]
  have h1 : splitNewlines [c] = [[c]] := by
    simp [splitNewlines_cons, splitNewlines, hc]
  rw [h1]
  simp [glueSplits]

theorem getLast?_splitNewlines (s : Content) :
    (splitNewlines s).getLast? = some [] ↔ (s = [] ∨ endsNL s = true) := by
  induction s using List.reverseRecOn with
  | nil => simp [splitNewlines]
  | append_singleton s' c _ =>
    by_cases hc : c = '\n'
    · subst hc
      rw [splitNewlines_concat_nl]
      simp [List.getLast?_concat, endsNL]
    · rw [splitNewlines_concat_other hc]
      rw [List.getLast?_concat]
      constructor
      · intro h
        simp at h
      · intro h
        rcases h with h | h
        · simp at h
        · rw [endsNL, List.getLast?_concat] at h
          simp at h
          exact absurd h hc

theorem readLines_ne_nil {s : Content} (hs : s ≠ []) : readLines s ≠ [] := by
  induction s using List.reverseRecOn with
  | nil => exact absurd rfl hs
  | append_singleton s' c _ =>
    by_cases hc : c = '\n'
    · subst hc
      rw [readLines_of_splitNewlines_concat (splitNewlines_concat_nl s')]
      exact splitNewlines_ne_nil s'
    · rw [readLines, splitNewlines_concat_other hc]
      rw [List.getLast?_concat]
      rw [if_neg (by simp)]
      simp

theorem readLines_eq_nil_iff (s : Content) : readLines s = [] ↔ s = [] := by
  constructor
  · intro h
    by_contra hs
    exact readLines_ne_nil hs h
  · intro h
    subst h
    simp [readLines, splitNewlines]

theorem readLines_append_joinNL {t : Content} {m : List Content}
    (ht : t = [] ∨ endsNL t = true) (hm : ∀ l ∈ m, '\n' ∉ l) :
    readLines (t ++ joinNL m) = readLines t ++ m := by
  cases m with
  | nil => simp [joinNL]
  | cons m0 mrest =>
    have hA : (splitNewlines t).getLast? = some [] := (getLast?_splitNewlines t).mpr ht
    have hAne : splitNewlines t ≠ [] := splitNewlines_ne_nil t
    have hlastD : (splitNewlines t).getLastD [] = [] := by
      rw [List.getLastD_eq_getLast?, hA]
      rfl
    have hsplit : splitNewlines (t ++ joinNL (m0 :: mrest))
        = ((splitNewlines t).dropLast ++ (m0 :: mrest)) ++ [[]] := by
      rw [splitNewlines_append, splitNewlines_joinNL hm]
      simp only [glueSplits, List.cons_append, hlastD, List.nil_append]
      simp
    rw [readLines_of_splitNewlines_concat hsplit]
    rw [readLines, if_pos hA]

theorem readLines_concat_nl {s : Content} (h1 : s ≠ []) (h2 : endsNL s = false) :
    readLines (s ++ ['\n']) = readLines s := by
  have hA : (splitNewlines s).getLast? ≠ some [] := by
    intro hcontra
    rcases (getLast?_splitNewlines s).mp hcontra with h | h
    · exact h1 h
    · rw [h] at h2
      cases h2
  rw [readLines_of_splitNewlines_concat (splitNewlines_concat_nl s)]
  rw [readLines, if_neg hA]

end Propagate

/-! ## Lemmas about stripping and the gitignore passes -/

namespace Propagate

theorem mem_rstripLine {x : Char} {l : Content} (h : x ∈ rstripLine l) : x ∈ l := by
  rw [rstripLine, List.mem_reverse] at h
  exact List.mem_reverse.mp ((List.dropWhile_sublist isPySpace).mem h)

theorem noNL_rstripLine {l : Content} (h : '\n' ∉ l) : '\n' ∉ rstripLine l :=
  fun hm => h (mem_rstripLine hm)

theorem rstripLine_idempotent (l : Content) : rstripLine (rstripLine l) = rstripLine l := by
  simp [rstripLine, List.dropWhile_idempotent]


theorem rstripLine_cons_neg {c : Char} {rest : Content} (hp : isPySpace c = false) :
    rstripLine (c :: rest) = c :: rstripLine rest := by
  unfold rstripLine
  rw [List.reverse_cons, List.dropWhile_append]
  by_cases h : (rest.reverse.dropWhile isPySpace).isEmpty = true
  · rw [if_pos h]
    rw [List.isEmpty_iff] at h
    rw [h]
    simp [List.dropWhile, hp]
  · rw [if_neg h]
    simp

theorem rstripLine_cons_pos {c : Char} {rest : Content} (hp : isPySpace c = true) :
    rstripLine (c :: rest)
      = if rstripLine rest = [] then [] else c :: rstripLine rest := by
  unfold rstripLine
  rw [List.reverse_cons, List.dropWhile_append]
  by_cases h : (rest.reverse.dropWhile isPySpace).isEmpty = true
  · rw [if_pos h]
    rw [List.isEmpty_iff] at h
    rw [h]
    simp [List.dropWhile, hp]
  · rw [if_neg h]
    rw [List.isEmpty_iff] at h
    rw [if_neg (by simpa using h)]
    simp

theorem dropWhile_rstripLine (l : Content) :
    (rstripLine l).dropWhile isPySpace = rstripLine (l.dropWhile isPySpace) := by
  induction l with
  | nil => simp [rstripLine]
  | cons c rest ih =>
    by_cases hp : isPySpace c = true
    · rw [rstripLine_cons_pos hp]
      rw [List.dropWhile_cons]
      rw [if_pos hp]
      by_cases hr : rstripLine rest = []
      · rw [if_pos hr, ← ih, hr]
      · rw [if_neg hr]
        rw [List.dropWhile_cons]
        rw [if_pos hp, ih]
    · have hp2 : isPySpace c = false := by simpa using hp
      rw [rstripLine_cons_neg hp2]
      rw [List.dropWhile_cons, if_neg hp]
      rw [List.dropWhile_cons, if_neg hp]
      rw [rstripLine_cons_neg hp2]

theorem stripLine_rstripLine (l : Content) : stripLine (rstripLine l) = stripLine l := by
  rw [stripLine, stripLine, dropWhile_rstripLine, rstripLine_idempotent]

theorem readLines_noNL {s : Content} : ∀ l ∈ readLines s, '\n' ∉ l := by
  intro l hl
  rw [readLines] at hl
  by_cases h : (splitNewlines s).getLast? = some []
  · rw [if_pos h] at hl
    exact splitNewlines_noNL s l ((List.dropLast_sublist _).mem hl)
  · rw [if_neg h] at hl
    exact splitNewlines_noNL s l hl

theorem remove_gitignore_entries_post (s : Content) (entries : List Content) :
    ∃ c, (remove_gitignore_entries (some s) entries false).2 = some c ∧
      (∀ l ∈ readLines c, stripLine l ∉ entries.map stripLine) ∧
      (∀ l ∈ readLines c, '\n' ∉ l) := by
  by_cases h0 : (List.filter (fun l => decide (stripLine l ∈ List.map stripLine entries))
      (readLines s)).length = 0
  · refine ⟨s, ?_, ?_, readLines_noNL⟩
    · rw [remove_gitignore_entries, if_pos h0]
    · rw [List.length_eq_zero, List.filter_eq_nil] at h0
      intro l hl
      have := h0 l hl
      simpa using this
  · refine ⟨_, by rw [remove_gitignore_entries, if_neg h0, if_neg Bool.false_ne_true], ?_, ?_⟩
    · intro l hl
      rw [readLines_joinNL ?hnl] at hl
      case hnl =>
        intro l2 hl2
        rcases List.mem_map.mp hl2 with ⟨l0, hl0, rfl⟩
        exact noNL_rstripLine (readLines_noNL l0 (List.mem_of_mem_filter hl0))
      rcases List.mem_map.mp hl with ⟨l0, hl0, rfl⟩
      rw [stripLine_rstripLine]
      have := List.of_mem_filter hl0
      simpa using this
    · intro l hl
      rw [readLines_joinNL ?hnl2] at hl
      case hnl2 =>
        intro l2 hl2
        rcases List.mem_map.mp hl2 with ⟨l0, hl0, rfl⟩
        exact noNL_rstripLine (readLines_noNL l0 (List.mem_of_mem_filter hl0))
      rcases List.mem_map.mp hl with ⟨l0, hl0, rfl⟩
      exact noNL_rstripLine (readLines_noNL l0 (List.mem_of_mem_filter hl0))

theorem dedup_unique_subset : ∀ (seen ls : List Content), ∀ l ∈ dedup_unique seen ls, l ∈ ls := by
  intro seen ls
  induction ls generalizing seen with
  | nil =>
    intro l hl
    simp [dedup_unique] at hl
  | cons x rest ih =>
    intro l hl
    rw [dedup_unique] at hl
    by_cases hx : x = []
    · rw [if_pos hx] at hl
      rcases List.mem_cons.mp hl with h | h
      · exact h ▸ List.mem_cons_self x rest
      · exact List.mem_cons_of_mem x (ih seen l h)
    · rw [if_neg hx] at hl
      by_cases hs : x ∈ seen
      · rw [if_pos hs] at hl
        exact List.mem_cons_of_mem x (ih seen l hl)
      · rw [if_neg hs] at hl
        rcases List.mem_cons.mp hl with h | h
        · exact h ▸ List.mem_cons_self x rest
        · exact List.mem_cons_of_mem x (ih (x :: seen) l h)

theorem deduplicate_gitignore_post (s : Content) :
    ∃ c, (deduplicate_gitignore (some s) false).2 = some c ∧
      (∀ l ∈ readLines c, ∃ l0 ∈ readLines s, stripLine l = stripLine l0) ∧
      (∀ l ∈ readLines c, '\n' ∉ l) := by
  have hnoNLu : ∀ l ∈ dedup_unique [] ((readLines s).map rstripLine), '\n' ∉ l := by
    intro l hl
    have h1 : l ∈ (readLines s).map rstripLine :=
      dedup_unique_subset [] _ l hl
    rcases List.mem_map.mp h1 with ⟨l0, hl0, rfl⟩
    exact noNL_rstripLine (readLines_noNL l0 hl0)
  by_cases hch : ((readLines s).map rstripLine).length
        - (dedup_unique [] ((readLines s).map rstripLine)).length = 0
      ∧ (((readLines s).zip ((readLines s).map rstripLine)).any
          (fun p => decide (p.1 ≠ p.2))) = false
  · refine ⟨s, ?_, fun l hl => ⟨l, hl, rfl⟩, readLines_noNL⟩
    rw [deduplicate_gitignore, if_pos hch]
  · refine ⟨_, by rw [deduplicate_gitignore, if_neg hch, if_neg Bool.false_ne_true], ?_, ?_⟩
    · intro l hl
      rw [readLines_joinNL hnoNLu] at hl
      have h1 : l ∈ (readLines s).map rstripLine :=
        dedup_unique_subset [] _ l hl
      rcases List.mem_map.mp h1 with ⟨l0, hl0, rfl⟩
      exact ⟨l0, hl0, stripLine_rstripLine l0⟩
    · intro l hl
      rw [readLines_joinNL hnoNLu] at hl
      exact hnoNLu l hl

theorem ensure_gitignore_entries_lines (st : Option Content) (entries : List Content)
    (hE : ∀ e ∈ entries, '\n' ∉ e) :
    gitignoreLines ((ensure_gitignore_entries st entries false).2)
      = gitignoreLines st
        ++ entries.filter (fun e => ¬ e ∈ (gitignoreLines st).map stripLine) := by
  cases st with
  | none =>
    rw [ensure_gitignore_entries]
    simp only [gitignoreLines, List.map_nil]
    by_cases hm : entries.filter (fun e => decide (¬ e ∈ ([] : List Content))) = []
    · rw [if_pos hm]
      have h2 : entries = [] := by simpa using hm
      simp [gitignoreLines, h2]
    · rw [if_neg hm, if_neg Bool.false_ne_true]
      simp only [gitignoreLines]
      rw [if_neg (by simp)]
      rw [List.nil_append]
      rw [readLines_joinNL (fun e he => hE e (List.mem_of_mem_filter he))]
      rw [List.nil_append]
  | some s =>
    rw [ensure_gitignore_entries]
    simp only [gitignoreLines, Option.isSome_some]
    by_cases hm : entries.filter
        (fun e => decide (¬ e ∈ (readLines s).map stripLine)) = []
    · rw [if_pos hm]
      simp only [gitignoreLines]
      rw [hm]
      simp
    · rw [if_neg hm, if_neg Bool.false_ne_true]
      have hmnoNL : ∀ l ∈ entries.filter
          (fun e => decide (¬ e ∈ (readLines s).map stripLine)), '\n' ∉ l :=
        fun e he => hE e (List.mem_of_mem_filter he)
      by_cases hee : (readLines s).map stripLine = []
      · have hs0 : readLines s = [] := by
          cases h : readLines s with
          | nil => rfl
          | cons a b =>
            rw [h] at hee
            simp at hee
        have hsnil : s = [] := (readLines_eq_nil_iff s).mp hs0
        subst hsnil
        rw [if_neg (by simp [hee])]
        simp only [gitignoreLines]
        rw [List.nil_append]
        rw [readLines_joinNL hmnoNL]
        simp only [hs0, List.nil_append]
      · have hsne : s ≠ [] := by
          intro h
          subst h
          exact hee (by rfl)
        by_cases hnl : endsNL s = false
        · rw [if_pos ⟨trivial, hee, hnl⟩]
          simp only [gitignoreLines]
          rw [readLines_append_joinNL (Or.inr (by simp [endsNL, List.getLast?_concat])) hmnoNL]
          rw [readLines_concat_nl hsne hnl]
        · have hnl2 : endsNL s = true := by
            cases h : endsNL s with
            | false => exact absurd h hnl
            | true => rfl
          rw [if_neg (by simp [hnl2])]
          simp only [gitignoreLines]
          rw [readLines_append_joinNL (Or.inr hnl2) hmnoNL]

end Propagate

/-! ## Claim theorems for the gitignore reconciler -/

namespace Propagate

theorem dedup_unique_eq_first_occurrence :
    ∀ (ls seen pre : List Content),
      (∀ x : Content, x ∈ seen ↔ (x ≠ [] ∧ x ∈ pre)) →
      dedup_unique seen ls = dedup_first_occurrence pre ls := by
  intro ls
  induction ls with
  | nil =>
    intro seen pre _
    rfl
  | cons l rest ih =>
    intro seen pre hinv
    rw [dedup_unique, dedup_first_occurrence]
    by_cases hl : l = []
    · rw [if_pos hl, if_pos (Or.inl hl)]
      rw [ih seen (pre ++ [l]) ?hinv2]
      case hinv2 =>
        intro x
        rw [hinv x]
        constructor
        · rintro ⟨hx, hxp⟩
          exact ⟨hx, List.mem_append_left _ hxp⟩
        · rintro ⟨hx, hxp⟩
          rcases List.mem_append.mp hxp with h | h
          · exact ⟨hx, h⟩
          · rw [List.mem_singleton] at h
            exact absurd (h.trans hl) hx
    · rw [if_neg hl]
      by_cases hs : l ∈ seen
      · have hlp : l ∈ pre := ((hinv l).mp hs).2
        rw [if_pos hs, if_neg (by simp [hl, hlp])]
        refine ih seen (pre ++ [l]) ?_
        intro x
        rw [hinv x]
        constructor
        · rintro ⟨hx, hxp⟩
          exact ⟨hx, List.mem_append_left _ hxp⟩
        · rintro ⟨hx, hxp⟩
          rcases List.mem_append.mp hxp with h | h
          · exact ⟨hx, h⟩
          · rw [List.mem_singleton] at h
            subst h
            exact ⟨hx, hlp⟩
      · have hlp : ¬ l ∈ pre := fun hp => hs ((hinv l).mpr ⟨hl, hp⟩)
        rw [if_neg hs, if_pos (Or.inr hlp)]
        rw [ih (l :: seen) (pre ++ [l]) ?hinv3]
        case hinv3 =>
          intro x
          constructor
          · intro hx
            rcases List.mem_cons.mp hx with h | h
            · subst h
              exact ⟨hl, List.mem_append_right _ (List.mem_singleton_self x)⟩
            · rcases (hinv x).mp h with ⟨h1, h2⟩
              exact ⟨h1, List.mem_append_left _ h2⟩
          · rintro ⟨hx, hxp⟩
            rcases List.mem_append.mp hxp with h | h
            · exact List.mem_cons_of_mem _ ((hinv x).mpr ⟨hx, h⟩)
            · rw [List.mem_singleton] at h
              subst h
              exact List.mem_cons_self x seen

theorem zip_rstrip_any_eq (l : List Content) :
    ((l.zip (l.map rstripLine)).any (fun p => decide (p.1 ≠ p.2)))
      = l.any (fun x => decide (x ≠ rstripLine x)) := by
  induction l with
  | nil => rfl
  | cons x xs ih =>
    simp only [List.map_cons, List.zip_cons_cons, List.any_cons, ih]

/-- Claim C3: `deduplicate_gitignore` right-strips every line, keeps every
blank line, keeps among non-blank lines only the first occurrence of each
distinct value in original order, reports the number of removed duplicate
lines together with whether any trailing whitespace was stripped, and on the
input lines `["a", "", "a", "b", "a"]` produces `["a", "", "b"]`. -/
theorem C3_dedup_keeps_first_occurrence :
    (∀ (s : Content) (dry : Bool),
      dedup_unique [] ((readLines s).map rstripLine)
          = dedup_first_occurrence [] ((readLines s).map rstripLine)
      ∧ (deduplicate_gitignore (some s) dry).1
          = (((readLines s).map rstripLine).length
              - (dedup_first_occurrence [] ((readLines s).map rstripLine)).length,
             (readLines s).any (fun x => decide (x ≠ rstripLine x))))
    ∧ dedup_unique [] ["a".data, [], "a".data, "b".data, "a".data]
        = ["a".data, [], "b".data]
    ∧ deduplicate_gitignore (some "a\n\na\nb\na\n".data) false
        = ((2, false), some "a\n\nb\n".data) := by
  refine ⟨?_, by decide, by decide⟩
  intro s dry
  have hfo : dedup_unique [] ((readLines s).map rstripLine)
      = dedup_first_occurrence [] ((readLines s).map rstripLine) :=
    dedup_unique_eq_first_occurrence _ [] [] (by simp)
  refine ⟨hfo, ?_⟩
  rw [deduplicate_gitignore]
  rw [← hfo, ← zip_rstrip_any_eq]
  by_cases hch : ((readLines s).map rstripLine).length
        - (dedup_unique [] ((readLines s).map rstripLine)).length = 0
      ∧ (((readLines s).zip ((readLines s).map rstripLine)).any
          (fun p => decide (p.1 ≠ p.2))) = false
  · rw [if_pos hch]
    rw [hch.1, hch.2]
  · rw [if_neg hch]
    by_cases hdry : dry = true
    · subst hdry
      rw [if_pos rfl]
    · have : dry = false := by
        cases dry with
        | false => rfl
        | true => exact absurd rfl hdry
      subst this
      rw [if_neg Bool.false_ne_true]

/-- Claim C1 (divergence witness): on a `.gitignore` consisting of the
deprecated entry `shebang_report.txt` twice, `process_gitignore` classifies
the dedup pass differently in dry-run and in a real run: the dry-run dedup
pass reads the file the deprecated pass did not rewrite and reports one
duplicate removed, while the real run (whose deprecated pass already removed
both lines) reports none; dry-run leaves the file untouched. -/
theorem C1_dry_run_parity_fails_on_process_gitignore :
    (process_gitignore (some "shebang_report.txt\nshebang_report.txt\n".data) true).1
        ≠ (process_gitignore (some "shebang_report.txt\nshebang_report.txt\n".data) false).1
    ∧ (process_gitignore (some "shebang_report.txt\nshebang_report.txt\n".data) true).1.dupRemoved = 1
    ∧ (process_gitignore (some "shebang_report.txt\nshebang_report.txt\n".data) true).1.cleaned = 1
    ∧ (process_gitignore (some "shebang_report.txt\nshebang_report.txt\n".data) false).1.dupRemoved = 0
    ∧ (process_gitignore (some "shebang_report.txt\nshebang_report.txt\n".data) false).1.cleaned = 0
    ∧ (process_gitignore (some "shebang_report.txt\nshebang_report.txt\n".data) true).2
        = some "shebang_report.txt\nshebang_report.txt\n".data := by
  decide

end Propagate

namespace Propagate

theorem ensure_gitignore_entries_is_some (st : Option Content) (entries : List Content)
    (h : st.isSome = true
      ∨ entries.filter (fun e => ¬ e ∈ (gitignoreLines st).map stripLine) ≠ []) :
    ∃ c, (ensure_gitignore_entries st entries false).2 = some c := by
  cases st with
  | none =>
    have hmne : entries.filter (fun e => decide (¬ e ∈ ([] : List Content))) ≠ [] := by
      rcases h with h | h
      · simp at h
      · simpa [gitignoreLines] using h
    rw [ensure_gitignore_entries, if_neg hmne, if_neg Bool.false_ne_true]
    exact ⟨_, rfl⟩
  | some s =>
    rw [ensure_gitignore_entries]
    by_cases hm : entries.filter
        (fun e => decide (¬ e ∈ (readLines s).map stripLine)) = []
    · rw [if_pos hm]
      exact ⟨s, rfl⟩
    · rw [if_neg hm, if_neg Bool.false_ne_true]
      exact ⟨_, rfl⟩

/-- Claim C4: inside one `process_gitignore` call the deprecated-removal pass
runs before the required-entry insertion pass, so an entry lying in both the
deprecated and the required sets ends up present in the file: every line
carrying it is removed, and the insertion pass then re-adds it exactly once.
Stated for the reconciler parameterised over the two entry sets, which
`process_gitignore` instantiates with the module constants. -/
theorem C4_deprecated_removed_then_readded (depr req : List Content)
    (st : Option Content) (e : Content)
    (hstrip : stripLine e = e)
    (hdepr : e ∈ depr) (hreq : e ∈ req) (hcount : req.count e = 1)
    (hreqNL : ∀ r ∈ req, '\n' ∉ r) :
    ∃ c, (process_gitignore_with depr req st false).2 = some c
      ∧ (readLines c).count e = 1 := by
  have hemem : e ∈ depr.map stripLine := by
    have h := List.mem_map_of_mem stripLine hdepr
    rwa [hstrip] at h
  have key : ∀ st2 : Option Content,
      (∀ l ∈ gitignoreLines st2, stripLine l ∉ depr.map stripLine) →
      ∃ c, (ensure_gitignore_entries st2 req false).2 = some c
        ∧ (readLines c).count e = 1 := by
    intro st2 hinv
    have hnotin : ¬ e ∈ (gitignoreLines st2).map stripLine := by
      intro hmem
      rcases List.mem_map.mp hmem with ⟨l, hl, hle⟩
      exact hinv l hl (by rw [hle]; exact hemem)
    have hne : req.filter (fun x => ¬ x ∈ (gitignoreLines st2).map stripLine) ≠ [] := by
      intro hnil
      have hmemf : e ∈ req.filter (fun x => decide (¬ x ∈ (gitignoreLines st2).map stripLine)) :=
        List.mem_filter.mpr ⟨hreq, by simpa using hnotin⟩
      rw [hnil] at hmemf
      simp at hmemf
    rcases ensure_gitignore_entries_is_some st2 req (Or.inr hne) with ⟨c, hc⟩
    refine ⟨c, hc, ?_⟩
    have hlines := ensure_gitignore_entries_lines st2 req hreqNL
    rw [hc] at hlines
    rw [show gitignoreLines (some c) = readLines c from rfl] at hlines
    rw [hlines, List.count_append]
    have h1 : (gitignoreLines st2).count e = 0 := by
      rw [List.count_eq_zero]
      intro hmem
      exact hinv e hmem (by rw [hstrip]; exact hemem)
    have h2 : (req.filter (fun x => decide (¬ x ∈ (gitignoreLines st2).map stripLine))).count e
        = req.count e := List.count_filter (by simpa using hnotin)
    rw [h1, h2, hcount]
  cases st with
  | none =>
    have hres : (process_gitignore_with depr req none false).2
        = (ensure_gitignore_entries none req false).2 := rfl
    rw [hres]
    refine key none ?_
    intro l hl
    simp [gitignoreLines] at hl
  | some s =>
    rcases remove_gitignore_entries_post s depr with ⟨c1, hc1, hc1inv, hc1NL⟩
    rcases deduplicate_gitignore_post c1 with ⟨c2, hc2, hc2rel, hc2NL⟩
    have hres : (process_gitignore_with depr req (some s) false).2
        = (ensure_gitignore_entries
            ((deduplicate_gitignore ((remove_gitignore_entries (some s) depr false).2) false).2)
            req false).2 := rfl
    rw [hres, hc1, hc2]
    refine key (some c2) ?_
    intro l hl
    have hl2 : l ∈ readLines c2 := hl
    rcases hc2rel l hl2 with ⟨l0, hl0, heq⟩
    rw [heq]
    exact hc1inv l0 hl0

/-- Claim C4 witness: with `X` both deprecated and required, a file holding
`X` and another line ends up with exactly one `X` line after the call. -/
theorem C4_witness :
    ∃ c, (process_gitignore_with ["X".data] ["X".data]
        (some "X\nkeep\nX\n".data) false).2 = some c
      ∧ (readLines c).count "X".data = 1 :=
  C4_deprecated_removed_then_readded ["X".data] ["X".data]
    (some "X\nkeep\nX\n".data) "X".data
    (by decide) (by decide) (by decide) (by decide) (by decide)

/-- Claim C5: `ensure_gitignore_entries` with `dry_run = False` appends exactly
the entries whose value is missing from the stripped existing lines, at the end
of the file after ensuring a trailing newline; a required entry `X` absent from
the trimmed lines ends up as exactly one line equal to `X`; entries already
present are not appended; an absent file is created holding the missing
entries. -/
theorem C5_required_entry_insertion :
    (∀ (s : Content) (entries : List Content),
      (∀ e ∈ entries, '\n' ∉ e) →
      gitignoreLines ((ensure_gitignore_entries (some s) entries false).2)
        = readLines s ++ entries.filter (fun e => ¬ e ∈ (readLines s).map stripLine))
    ∧ (∀ (s : Content) (entries : List Content) (X : Content),
        (∀ e ∈ entries, '\n' ∉ e) → stripLine X = X → X ∈ entries →
        entries.count X = 1 → ¬ X ∈ (readLines s).map stripLine →
        ∃ c, (ensure_gitignore_entries (some s) entries false).2 = some c
          ∧ (readLines c).count X = 1
          ∧ readLines c
              = readLines s ++ entries.filter (fun e => ¬ e ∈ (readLines s).map stripLine))
    ∧ (∀ (s : Content) (entries : List Content),
        entries.filter (fun e => ¬ e ∈ (readLines s).map stripLine) ≠ [] →
        s ≠ [] → endsNL s = false →
        (ensure_gitignore_entries (some s) entries false).2
          = some ((s ++ ['\n'])
              ++ joinNL (entries.filter (fun e => ¬ e ∈ (readLines s).map stripLine))))
    ∧ (∀ (entries : List Content),
        (∀ e ∈ entries, '\n' ∉ e) → entries ≠ [] →
        ∃ c, (ensure_gitignore_entries none entries false).2 = some c
          ∧ readLines c = entries
          ∧ (ensure_gitignore_entries none entries false).1.1 = true) := by
  refine ⟨?part1, ?part2, ?part3, ?part4⟩
  case part1 =>
    intro s entries hE
    have h := ensure_gitignore_entries_lines (some s) entries hE
    rw [show gitignoreLines (some s) = readLines s from rfl] at h
    exact h
  case part2 =>
    intro s entries X hE hstrip hX hcount hnotin
    rcases ensure_gitignore_entries_is_some (some s) entries (Or.inl rfl) with ⟨c, hc⟩
    refine ⟨c, hc, ?_, ?_⟩
    · have h := ensure_gitignore_entries_lines (some s) entries hE
      rw [hc] at h
      rw [show gitignoreLines (some c) = readLines c from rfl] at h
      rw [show gitignoreLines (some s) = readLines s from rfl] at h
      rw [h, List.count_append]
      have h1 : (readLines s).count X = 0 := by
        rw [List.count_eq_zero]
        intro hmem
        exact hnotin (by rw [← hstrip]; exact List.mem_map_of_mem stripLine hmem)
      have h2 : (entries.filter
          (fun e => decide (¬ e ∈ (readLines s).map stripLine))).count X
          = entries.count X := List.count_filter (by simpa using hnotin)
      rw [h1, h2, hcount]
    · have h := ensure_gitignore_entries_lines (some s) entries hE
      rw [hc] at h
      rw [show gitignoreLines (some c) = readLines c from rfl] at h
      rw [show gitignoreLines (some s) = readLines s from rfl] at h
      exact h
  case part3 =>
    intro s entries hne hs hnl
    have hee : (readLines s).map stripLine ≠ [] := by
      intro h
      have : readLines s = [] := by
        cases hh : readLines s with
        | nil => rfl
        | cons a b =>
          rw [hh] at h
          simp at h
      exact readLines_ne_nil hs this
    rw [ensure_gitignore_entries, if_neg (by simpa using hne), if_neg Bool.false_ne_true]
    simp only [Option.isSome_some]
    rw [if_pos ⟨trivial, hee, hnl⟩]
  case part4 =>
    intro entries hE hne
    have hmne : entries.filter (fun e => decide (¬ e ∈ ([] : List Content))) ≠ [] := by
      simpa using hne
    rw [ensure_gitignore_entries, if_neg hmne, if_neg Bool.false_ne_true]
    refine ⟨_, rfl, ?_, rfl⟩
    rw [show ((if (none : Option Content).isSome = true ∧ ([] : List Content) ≠ []
          ∧ endsNL [] = false then ([] : Content) ++ ['\n'] else ([] : Content))) = [] by simp]
    rw [List.nil_append]
    rw [readLines_joinNL (fun e he => hE e (List.mem_of_mem_filter he))]
    have : entries.filter (fun e => decide (¬ e ∈ ([] : List Content))) = entries := by
      simp
    rw [this]

/-- Claim C5 witness: a file `a` (no trailing newline) missing the required
entry `X` gains exactly one `X` line after a trailing newline is ensured. -/
theorem C5_witness :
    (∃ c, (ensure_gitignore_entries (some "a".data) ["X".data] false).2 = some c
      ∧ (readLines c).count "X".data = 1
      ∧ readLines c = readLines "a".data
          ++ (["X".data].filter
              (fun e => ¬ e ∈ (readLines "a".data).map stripLine)))
    ∧ (ensure_gitignore_entries (some "a".data) ["X".data] false).2
        = some (("a".data ++ ['\n'])
            ++ joinNL (["X".data].filter
              (fun e => ¬ e ∈ (readLines "a".data).map stripLine))) :=
  ⟨C5_required_entry_insertion.2.1 "a".data ["X".data] "X".data
      (by decide) (by decide) (by decide) (by decide) (by decide),
   C5_required_entry_insertion.2.2.1 "a".data ["X".data]
      (by decide) (by decide) (by decide)⟩

end Propagate

/-! ## Lemmas about the filesystem model and the synchroniser -/

namespace Propagate

theorem find?_filter_ne (fs : FS) (p q : FPath) (hqp : q ≠ p) :
    (fs.filter (fun e => decide (¬ e.1 = p))).find? (fun e => decide (e.1 = q))
      = fs.find? (fun e => decide (e.1 = q)) := by
  induction fs with
  | nil => simp
  | cons e rest ih =>
    by_cases hep : e.1 = p
    · rw [List.filter_cons_of_neg (by simp [hep])]
      rw [List.find?_cons_of_neg _ (by simp; intro h; exact hqp (h ▸ hep))]
      exact ih
    · rw [List.filter_cons_of_pos (by simp [hep])]
      by_cases heq : e.1 = q
      · rw [List.find?_cons_of_pos _ (by simpa using heq),
          List.find?_cons_of_pos _ (by simpa using heq)]
      · rw [List.find?_cons_of_neg _ (by simpa using heq),
          List.find?_cons_of_neg _ (by simpa using heq)]
        exact ih

theorem fsRead_fsWrite (fs : FS) (p : FPath) (c : Content) (q : FPath) :
    fsRead (fsWrite fs p c) q = if q = p then some c else fsRead fs q := by
  rw [fsRead, fsWrite]
  by_cases hqp : q = p
  · subst hqp
    rw [List.find?_cons_of_pos _ (by simp)]
    simp
  · rw [if_neg hqp]
    rw [List.find?_cons_of_neg _ (by simp; exact fun h => hqp h.symm)]
    rw [find?_filter_ne fs p q hqp]
    rfl

theorem fsRead_fsRemove (fs : FS) (p : FPath) (q : FPath) (h : q ≠ p) :
    fsRead (fsRemove fs p) q = fsRead fs q := by
  rw [fsRead, fsRemove, find?_filter_ne fs p q h]
  rfl

theorem fs_any_fsWrite (fs : FS) (p : FPath) (c : Content) (P : FPath → Bool)
    (hP : P p = false) :
    (fsWrite fs p c).any (fun e => P e.1) = fs.any (fun e => P e.1) := by
  rw [fsWrite, List.any_cons, hP, Bool.false_or]
  induction fs with
  | nil => simp
  | cons e rest ih =>
    by_cases hep : e.1 = p
    · rw [List.filter_cons_of_neg (by simp [hep])]
      rw [List.any_cons, hep, hP, Bool.false_or]
      exact ih
    · rw [List.filter_cons_of_pos (by simp [hep])]
      rw [List.any_cons, List.any_cons, ih]

theorem fs_any_fsRemove (fs : FS) (p : FPath) (P : FPath → Bool)
    (hP : P p = false) :
    (fsRemove fs p).any (fun e => P e.1) = fs.any (fun e => P e.1) := by
  rw [fsRemove]
  induction fs with
  | nil => simp
  | cons e rest ih =>
    by_cases hep : e.1 = p
    · rw [List.filter_cons_of_neg (by simp [hep])]
      rw [List.any_cons, hep, hP, Bool.false_or]
      exact ih
    · rw [List.filter_cons_of_pos (by simp [hep])]
      rw [List.any_cons, List.any_cons, ih]

theorem repo_has_pyproject_fsWrite (repo : FPath) (fs : FS) (p : FPath) (c : Content)
    (h : ¬ pathBase p = "pyproject.toml") :
    repo_has_pyproject_toml repo (fsWrite fs p c) = repo_has_pyproject_toml repo fs := by
  rw [repo_has_pyproject_toml, repo_has_pyproject_toml]
  exact fs_any_fsWrite fs p c
    (fun q => walkVisible repo q && decide (pathBase q = "pyproject.toml")) (by simp [h])

theorem repo_has_pyproject_fsRemove (repo : FPath) (fs : FS) (p : FPath)
    (h : ¬ pathBase p = "pyproject.toml") :
    repo_has_pyproject_toml repo (fsRemove fs p) = repo_has_pyproject_toml repo fs := by
  rw [repo_has_pyproject_toml, repo_has_pyproject_toml]
  exact fs_any_fsRemove fs p
    (fun q => walkVisible repo q && decide (pathBase q = "pyproject.toml")) (by simp [h])

theorem repo_has_python_of_isFile (repo : FPath) (fs : FS) (p : FPath)
    (hfile : fsIsFile fs p = true) (hvis : walkVisible repo p = true)
    (hpy : strEndsWith (pathBase p) ".py" = true) :
    repo_has_python_files repo fs = true := by
  rw [fsIsFile, fsRead] at hfile
  cases hfind : fs.find? (fun e => decide (e.1 = p)) with
  | none =>
    rw [hfind] at hfile
    simp at hfile
  | some e =>
    have hmem : e ∈ fs := List.mem_of_find?_eq_some hfind
    have hep : e.1 = p := by simpa using List.find?_some hfind
    rw [repo_has_python_files, List.any_eq_true]
    refine ⟨e, hmem, ?_⟩
    rw [hep, hvis, hpy]
    rfl

theorem sync_file_fst (dry : Bool) (fs : FS) (src dst : FPath) :
    (sync_file dry fs src dst).1 = syncOutcomePure fs src dst := by
  rw [sync_file, syncOutcomePure]
  by_cases h : dst = src
  · rw [if_pos h, if_pos h]
  · rw [if_neg h, if_neg h]
    cases fsRead fs src with
    | none => rfl
    | some sc =>
      cases fsRead fs dst with
      | none => rfl
      | some dc =>
        by_cases hc : sc = dc
        · simp [hc]
        · simp [hc]

theorem sync_file_preserves (dry : Bool) (fs : FS) (src dst q : FPath) (h : q ≠ dst) :
    fsRead ((sync_file dry fs src dst).2) q = fsRead fs q := by
  rw [sync_file]
  by_cases hds : dst = src
  · rw [if_pos hds]
  · rw [if_neg hds]
    cases fsRead fs src with
    | none => rfl
    | some sc =>
      cases fsRead fs dst with
      | none =>
        dsimp only
        cases dry with
        | true => rfl
        | false =>
          simp only [Bool.false_eq_true, if_false]
          rw [fsRead_fsWrite, if_neg h]
      | some dc =>
        dsimp only
        by_cases hc : sc = dc
        · rw [if_pos hc]
        · rw [if_neg hc]
          cases dry with
          | true => rfl
          | false =>
            simp only [Bool.false_eq_true, if_false]
            rw [fsRead_fsWrite, if_neg h]

theorem sync_file_establishes (fs : FS) (src dst : FPath) (sc : Content)
    (hne : dst ≠ src) (hsrc : fsRead fs src = some sc) :
    fsRead ((sync_file false fs src dst).2) dst = some sc
    ∧ fsRead ((sync_file false fs src dst).2) src = some sc := by
  rw [sync_file, if_neg hne, hsrc]
  cases hdst : fsRead fs dst with
  | none =>
    dsimp only
    simp only [Bool.false_eq_true, if_false]
    constructor
    · rw [fsRead_fsWrite, if_pos rfl]
    · rw [fsRead_fsWrite, if_neg (fun h => hne h.symm), hsrc]
  | some dc =>
    dsimp only
    by_cases hc : sc = dc
    · rw [if_pos hc]
      exact ⟨hc ▸ hdst, hsrc⟩
    · rw [if_neg hc]
      simp only [Bool.false_eq_true, if_false]
      constructor
      · rw [fsRead_fsWrite, if_pos rfl]
      · rw [fsRead_fsWrite, if_neg (fun h => hne h.symm), hsrc]

theorem sync_file_noop (fs : FS) (src dst : FPath)
    (h : dst = src ∨ ∃ c, fsRead fs src = some c ∧ fsRead fs dst = some c) :
    (sync_file false fs src dst).2 = fs
    ∧ ((sync_file false fs src dst).1 = .skipSource
        ∨ (sync_file false fs src dst).1 = .skipSame) := by
  rw [sync_file]
  by_cases hds : dst = src
  · rw [if_pos hds]
    exact ⟨rfl, Or.inl rfl⟩
  · rw [if_neg hds]
    rcases h with h | ⟨c, hsrc, hdst⟩
    · exact absurd h hds
    · rw [hsrc, hdst]
      dsimp only
      rw [if_pos rfl]
      exact ⟨rfl, Or.inr rfl⟩

theorem syncOutcomePure_congr (fs1 fs2 : FS) (src dst : FPath)
    (hsrc : fsRead fs1 src = fsRead fs2 src) (hdst : fsRead fs1 dst = fsRead fs2 dst) :
    syncOutcomePure fs1 src dst = syncOutcomePure fs2 src dst := by
  rw [syncOutcomePure, syncOutcomePure, hsrc, hdst]

end Propagate

namespace Propagate

theorem sync_file_noop2 (fs : FS) (src dst : FPath)
    (h : dst = src ∨ ∃ c, fsRead fs src = some c ∧ fsRead fs dst = some c) :
    sync_file false fs src dst
      = ((if dst = src then .skipSource else .skipSame), fs) := by
  rw [sync_file]
  by_cases hds : dst = src
  · rw [if_pos hds, if_pos hds]
  · rw [if_neg hds, if_neg hds]
    rcases h with h | ⟨c, hsrc, hdst⟩
    · exact absurd h hds
    · rw [hsrc, hdst]
      dsimp only
      rw [if_pos rfl]

theorem sync_file_snd_cases (fs : FS) (src dst : FPath) :
    (sync_file false fs src dst).2 = fs
    ∨ ∃ sc, fsRead fs src = some sc
        ∧ (sync_file false fs src dst).2 = fsWrite fs dst sc := by
  rw [sync_file]
  by_cases hds : dst = src
  · rw [if_pos hds]
    exact Or.inl rfl
  · rw [if_neg hds]
    cases hsrc : fsRead fs src with
    | none => exact Or.inl rfl
    | some sc =>
      cases hdst : fsRead fs dst with
      | none =>
        dsimp only
        simp only [Bool.false_eq_true, if_false]
        exact Or.inr ⟨sc, rfl, rfl⟩
      | some dc =>
        dsimp only
        by_cases hc : sc = dc
        · rw [if_pos hc]
          exact Or.inl rfl
        · rw [if_neg hc]
          simp only [Bool.false_eq_true, if_false]
          exact Or.inr ⟨sc, rfl, rfl⟩

theorem syncFold_names (dry : Bool) (g : FS → String → Option SyncOutcome)
    (dest : String → FPath) :
    ∀ (pairs : List (String × FPath)) (fs : FS),
      (syncFold dry g dest pairs fs).1.map Prod.fst = pairs.map Prod.fst := by
  intro pairs
  induction pairs with
  | nil =>
    intro fs
    rfl
  | cons pr rest ih =>
    intro fs
    obtain ⟨f, src⟩ := pr
    rw [syncFold]
    cases hg : g fs f with
    | some o =>
      dsimp only
      rw [List.map_cons, List.map_cons, ih]
    | none =>
      dsimp only
      rw [List.map_cons, List.map_cons, ih]

theorem syncFold_errors (dry : Bool) (g : FS → String → Option SyncOutcome)
    (dest : String → FPath)
    (hg : ∀ fsx f o, g fsx f = some o → o ≠ .err) :
    ∀ (pairs : List (String × FPath)) (fs : FS),
      (syncFold dry g dest pairs fs).2.2
        = countO .err (syncFold dry g dest pairs fs).1 := by
  intro pairs
  induction pairs with
  | nil =>
    intro fs
    rfl
  | cons pr rest ih =>
    intro fs
    obtain ⟨f, src⟩ := pr
    rw [syncFold]
    cases hgf : g fs f with
    | some o =>
      dsimp only
      rw [countO, List.filter_cons_of_neg (by simp [hg fs f o hgf])]
      rw [ih fs]
      rfl
    | none =>
      dsimp only
      by_cases he : (sync_file dry fs src (dest f)).1 = .err
      · rw [countO, List.filter_cons_of_pos (by simp [he])]
        rw [if_pos he, List.length_cons]
        rw [ih]
        rw [countO]
        omega
      · rw [countO, List.filter_cons_of_neg (by simp [he])]
        rw [if_neg he, ih]
        rw [countO]
        omega

theorem syncFold_preserves (dry : Bool) (g : FS → String → Option SyncOutcome)
    (dest : String → FPath) :
    ∀ (pairs : List (String × FPath)) (fs : FS) (q : FPath),
      (∀ pr ∈ pairs, q ≠ dest pr.1) →
      fsRead ((syncFold dry g dest pairs fs).2.1) q = fsRead fs q := by
  intro pairs
  induction pairs with
  | nil =>
    intro fs q _
    rfl
  | cons pr rest ih =>
    intro fs q hq
    obtain ⟨f, src⟩ := pr
    rw [syncFold]
    cases hgf : g fs f with
    | some o =>
      dsimp only
      exact ih fs q (fun pr hpr => hq pr (List.mem_cons_of_mem _ hpr))
    | none =>
      dsimp only
      rw [ih _ q (fun pr hpr => hq pr (List.mem_cons_of_mem _ hpr))]
      exact sync_file_preserves dry fs src (dest f) q
        (hq (f, src) (List.mem_cons_self _ _))

theorem syncFold_noop (g : FS → String → Option SyncOutcome) (dest : String → FPath) :
    ∀ (pairs : List (String × FPath)) (fs : FS),
      (∀ pr ∈ pairs, g fs pr.1 = none →
        (dest pr.1 = pr.2
          ∨ ∃ c, fsRead fs pr.2 = some c ∧ fsRead fs (dest pr.1) = some c)) →
      (syncFold false g dest pairs fs).2.1 = fs
      ∧ (syncFold false g dest pairs fs).1
          = pairs.map (fun pr => (pr.1,
              match g fs pr.1 with
              | some o => o
              | none => if dest pr.1 = pr.2 then SyncOutcome.skipSource
                        else SyncOutcome.skipSame)) := by
  intro pairs
  induction pairs with
  | nil =>
    intro fs _
    exact ⟨rfl, rfl⟩
  | cons pr rest ih =>
    intro fs h
    obtain ⟨f, src⟩ := pr
    rw [syncFold]
    cases hgf : g fs f with
    | some o =>
      dsimp only
      rcases ih fs (fun pr hpr => h pr (List.mem_cons_of_mem _ hpr)) with ⟨h1, h2⟩
      refine ⟨h1, ?_⟩
      rw [List.map_cons, h2, hgf]
    | none =>
      dsimp only
      have hnoop := sync_file_noop2 fs src (dest f)
        (h (f, src) (List.mem_cons_self _ _) hgf)
      rw [hnoop]
      dsimp only
      rcases ih fs (fun pr hpr => h pr (List.mem_cons_of_mem _ hpr)) with ⟨h1, h2⟩
      refine ⟨h1, ?_⟩
      rw [List.map_cons, h2, hgf]

end Propagate

namespace Propagate

theorem syncFold_run (g : FS → String → Option SyncOutcome) (dest : String → FPath)
    (gfix : String → Option SyncOutcome) (P : FS → Prop) :
    ∀ (pairs : List (String × FPath)) (fs : FS),
      P fs →
      (∀ fsx p c, P fsx → (∃ pr ∈ pairs, p = dest pr.1) → P (fsWrite fsx p c)) →
      (∀ fsx f, P fsx → g fsx f = gfix f) →
      (pairs.map (fun pr => dest pr.1)).Nodup →
      (∀ pr ∈ pairs, pr.2 = dest pr.1 ∨ ∀ qr ∈ pairs, pr.2 ≠ dest qr.1) →
      (∀ pr ∈ pairs, pr.2 ≠ dest pr.1 → (fsRead fs pr.2).isSome = true) →
      (syncFold false g dest pairs fs).1
          = pairs.map (fun pr => (pr.1,
              match gfix pr.1 with
              | some o => o
              | none => syncOutcomePure fs pr.2 (dest pr.1)))
      ∧ (∀ pr ∈ pairs, gfix pr.1 = none → pr.2 ≠ dest pr.1 →
          fsRead ((syncFold false g dest pairs fs).2.1) (dest pr.1) = fsRead fs pr.2
          ∧ fsRead ((syncFold false g dest pairs fs).2.1) pr.2 = fsRead fs pr.2)
      ∧ P ((syncFold false g dest pairs fs).2.1)
      ∧ (∀ pr ∈ pairs, (pr.2 = dest pr.1 ∨ gfix pr.1 ≠ none) →
          fsRead ((syncFold false g dest pairs fs).2.1) (dest pr.1)
            = fsRead fs (dest pr.1)) := by
  intro pairs
  induction pairs with
  | nil =>
    intro fs hP _ _ _ _ _
    exact ⟨rfl, by intro pr hpr; simp at hpr, hP, by intro pr hpr; simp at hpr⟩
  | cons pr0 rest ih =>
    intro fs hP hPw hg hnodup hsafe hsome
    obtain ⟨f, src⟩ := pr0
    have hnodup_rest : (rest.map (fun pr => dest pr.1)).Nodup := hnodup.of_cons
    have hhead_notin : ∀ qr ∈ rest, dest f ≠ dest qr.1 := by
      intro qr hqr hcontra
      have h1 := (List.nodup_cons.mp hnodup).1
      have h2 : dest qr.1 ∈ rest.map (fun pr => dest pr.1) :=
        List.mem_map_of_mem (fun pr => dest pr.1) hqr
      rw [← hcontra] at h2
      exact h1 h2
    have hsafe_rest : ∀ pr ∈ rest, pr.2 = dest pr.1 ∨ ∀ qr ∈ rest, pr.2 ≠ dest qr.1 := by
      intro pr hpr
      rcases hsafe pr (List.mem_cons_of_mem _ hpr) with h | h
      · exact Or.inl h
      · exact Or.inr (fun qr hqr => h qr (List.mem_cons_of_mem _ hqr))
    have hPw_rest : ∀ fsx p c, P fsx → (∃ pr ∈ rest, p = dest pr.1) → P (fsWrite fsx p c) := by
      intro fsx p c hp ⟨pr, hpr, hpeq⟩
      exact hPw fsx p c hp ⟨pr, List.mem_cons_of_mem _ hpr, hpeq⟩
    rw [syncFold]
    rw [hg fs f hP]
    cases hgf : gfix f with
    | some o =>
      dsimp only
      rcases ih fs hP hPw_rest hg hnodup_rest hsafe_rest
          (fun pr hpr h2 => hsome pr (List.mem_cons_of_mem _ hpr) h2) with ⟨ha, hb, hc, hd⟩
      refine ⟨?_, ?_, hc, ?_⟩
      · rw [List.map_cons, ha, hgf]
      · intro pr hpr hgn hne
        rcases List.mem_cons.mp hpr with h | h
        · subst h
          rw [hgf] at hgn
          cases hgn
        · exact hb pr h hgn hne
      · intro pr hpr hcond
        rcases List.mem_cons.mp hpr with h | h
        · subst h
          exact syncFold_preserves false g dest rest fs (dest f) hhead_notin
        · exact hd pr h hcond
    | none =>
      dsimp only
      by_cases hds : src = dest f
      · -- skip-source pair: nothing is written
        have hsync : sync_file false fs src (dest f) = (.skipSource, fs) := by
          rw [sync_file, if_pos hds.symm]
        rw [hsync]
        dsimp only
        rcases ih fs hP hPw_rest hg hnodup_rest hsafe_rest
            (fun pr hpr h2 => hsome pr (List.mem_cons_of_mem _ hpr) h2) with ⟨ha, hb, hc, hd⟩
        refine ⟨?_, ?_, hc, ?_⟩
        · rw [List.map_cons, ha, hgf]
          have : syncOutcomePure fs src (dest f) = .skipSource := by
            rw [syncOutcomePure, if_pos hds.symm]
          rw [this]
        · intro pr hpr hgn hne
          rcases List.mem_cons.mp hpr with h | h
          · subst h
            exact absurd hds hne
          · exact hb pr h hgn hne
        · intro pr hpr hcond
          rcases List.mem_cons.mp hpr with h | h
          · subst h
            exact syncFold_preserves false g dest rest fs (dest f) hhead_notin
          · exact hd pr h hcond
      · -- a real synchronisation step
        rcases Option.isSome_iff_exists.mp
            (hsome (f, src) (List.mem_cons_self _ _) hds) with ⟨sc, hsc⟩
        have hsafe_head : ∀ qr ∈ (f, src) :: rest, src ≠ dest qr.1 := by
          rcases hsafe (f, src) (List.mem_cons_self _ _) with h | h
          · exact absurd h hds
          · exact h
        set s := sync_file false fs src (dest f) with hs
        have hest := sync_file_establishes fs src (dest f) sc
          (fun h => hds h.symm) hsc
        have hpres : ∀ q : FPath, q ≠ dest f → fsRead s.2 q = fsRead fs q :=
          fun q hq => sync_file_preserves false fs src (dest f) q hq
        have hPs : P s.2 := by
          rcases sync_file_snd_cases fs src (dest f) with h | ⟨sc2, _, h⟩
          · rw [← hs] at h
            rw [h]
            exact hP
          · rw [← hs] at h
            rw [h]
            exact hPw fs (dest f) sc2 hP ⟨(f, src), List.mem_cons_self _ _, rfl⟩
        -- sources and destinations of the remaining pairs are untouched
        have hsrc_pres : ∀ pr ∈ rest, pr.2 ≠ dest pr.1 → fsRead s.2 pr.2 = fsRead fs pr.2 := by
          intro pr hpr hne
          rcases hsafe pr (List.mem_cons_of_mem _ hpr) with h | h
          · exact absurd h hne
          · exact hpres pr.2 (h (f, src) (List.mem_cons_self _ _))
        have hdst_pres : ∀ pr ∈ rest, fsRead s.2 (dest pr.1) = fsRead fs (dest pr.1) := by
          intro pr hpr
          exact hpres (dest pr.1) (fun h => hhead_notin pr hpr h.symm)
        rcases ih s.2 hPs hPw_rest hg hnodup_rest hsafe_rest
            (fun pr hpr h2 => by rw [hsrc_pres pr hpr h2]
                                 exact hsome pr (List.mem_cons_of_mem _ hpr) h2)
          with ⟨ha, hb, hc, hd⟩
        refine ⟨?_, ?_, hc, ?_⟩
        · rw [List.map_cons, ha, hgf]
          rw [sync_file_fst]
          congr 1
          refine List.map_congr_left ?_
          intro pr hpr
          cases hgp : gfix pr.1 with
          | some o => rfl
          | none =>
            have hsrcp : fsRead s.2 pr.2 = fsRead fs pr.2 := by
              rcases hsafe pr (List.mem_cons_of_mem _ hpr) with h | h
              · rw [h]
                exact hdst_pres pr hpr
              · exact hpres pr.2 (h (f, src) (List.mem_cons_self _ _))
            rw [syncOutcomePure_congr s.2 fs pr.2 (dest pr.1) hsrcp (hdst_pres pr hpr)]
        · intro pr hpr hgn hne
          rcases List.mem_cons.mp hpr with h | h
          · subst h
            constructor
            · rw [syncFold_preserves false g dest rest s.2 (dest f)
                (fun qr hqr => hhead_notin qr hqr)]
              rw [hest.1, hsc]
            · rw [syncFold_preserves false g dest rest s.2 src
                (fun qr hqr => hsafe_head qr (List.mem_cons_of_mem _ hqr))]
              rw [hest.2, hsc]
          · have := hb pr h hgn hne
            rw [hsrc_pres pr h hne] at this
            exact this
        · intro pr hpr hcond
          rcases List.mem_cons.mp hpr with h | h
          · subst h
            rcases hcond with h2 | h2
            · exact absurd h2 hds
            · exact absurd hgf h2
          · rw [hd pr h hcond]
            exact hdst_pres pr h

end Propagate

namespace Propagate

theorem append_two_eq_iff (repo : FPath) (a x b y : String) :
    repo ++ [a, x] = repo ++ [b, y] ↔ a = b ∧ x = y := by
  constructor
  · intro h
    have h2 := List.append_cancel_left h
    injection h2 with h3 h4
    injection h4 with h5 _
    exact ⟨h3, h5⟩
  · rintro ⟨rfl, rfl⟩
    rfl

theorem append_one_ne_two (repo : FPath) (x a b : String) :
    repo ++ [x] ≠ repo ++ [a, b] := by
  intro h
  have h2 := List.append_cancel_left h
  injection h2 with _ h4
  simp at h4

theorem isPrefixOf_append_self (repo l : FPath) : repo.isPrefixOf (repo ++ l) = true := by
  rw [List.isPrefixOf_iff_prefix]
  exact List.prefix_append repo l

theorem ne_append_of_not_prefix {repo q : FPath} (h : repo.isPrefixOf q = false)
    (l : FPath) : q ≠ repo ++ l := by
  intro hq
  rw [hq, isPrefixOf_append_self] at h
  cases h

theorem pathBase_append_one (repo : FPath) (a : String) :
    pathBase (repo ++ [a]) = a := by
  rw [pathBase, List.getLastD_eq_getLast?, List.getLast?_concat]
  rfl

theorem pathBase_append_two (repo : FPath) (a b : String) :
    pathBase (repo ++ [a, b]) = b := by
  rw [pathBase, List.getLastD_eq_getLast?,
    List.getLast?_append_of_ne_nil repo (by simp)]
  rfl

theorem walkVisible_append_two (repo : FPath) (a b : String) (h : walkDirOk a = true) :
    walkVisible repo (repo ++ [a, b]) = true := by
  rw [walkVisible, isPrefixOf_append_self]
  have h1 : repo.length < (repo ++ [a, b]).length := by
    rw [List.length_append]
    simp
  have h2 : (repo ++ [a, b]).drop repo.length = [a, b] := List.drop_left repo [a, b]
  rw [h2]
  simp [h, h1]

theorem countO_eq_zero {o : SyncOutcome} {l : List (String × SyncOutcome)}
    (h : ∀ x ∈ l, ¬ x.2 = o) : countO o l = 0 := by
  rw [countO, List.length_eq_zero, List.filter_eq_nil]
  intro x hx
  simp [h x hx]

theorem processGitignoreFS_preserves (repo : FPath) (dry : Bool) (fs : FS) (q : FPath)
    (h : q ≠ gitignorePath repo) :
    fsRead ((processGitignoreFS repo dry fs).2) q = fsRead fs q := by
  rw [processGitignoreFS]
  dsimp only
  cases dry with
  | true => rfl
  | false =>
    simp only [Bool.false_eq_true, if_false]
    cases (process_gitignore (fsRead fs (gitignorePath repo)) false).2 with
    | none => rfl
    | some c =>
      dsimp only
      rw [fsRead_fsWrite, if_neg h]

theorem processGitignoreFS_pyproject (repo : FPath) (dry : Bool) (fs : FS) :
    repo_has_pyproject_toml repo (processGitignoreFS repo dry fs).2
      = repo_has_pyproject_toml repo fs := by
  rw [processGitignoreFS]
  dsimp only
  cases dry with
  | true => rfl
  | false =>
    simp only [Bool.false_eq_true, if_false]
    cases (process_gitignore (fsRead fs (gitignorePath repo)) false).2 with
    | none => rfl
    | some c =>
      dsimp only
      exact repo_has_pyproject_fsWrite repo fs _ c
        (by rw [gitignorePath, pathBase_append_one]; decide)

theorem conftestStep_preserves (repo : FPath) (dry : Bool) (fs : FS) (q : FPath)
    (h : q ≠ conftestPath repo) :
    fsRead ((conftestStep repo dry fs).1) q = fsRead fs q := by
  rw [conftestStep]
  by_cases hc : fsIsFile fs (conftestPath repo) = true
  · rw [if_pos hc]
  · rw [if_neg hc]
    dsimp only
    cases dry with
    | true => rfl
    | false =>
      simp only [Bool.false_eq_true, if_false]
      rw [fsRead_fsWrite, if_neg h]

theorem conftestStep_pyproject (repo : FPath) (dry : Bool) (fs : FS) :
    repo_has_pyproject_toml repo (conftestStep repo dry fs).1
      = repo_has_pyproject_toml repo fs := by
  rw [conftestStep]
  by_cases hc : fsIsFile fs (conftestPath repo) = true
  · rw [if_pos hc]
  · rw [if_neg hc]
    dsimp only
    cases dry with
    | true => rfl
    | false =>
      simp only [Bool.false_eq_true, if_false]
      exact repo_has_pyproject_fsWrite repo fs _ []
        (by rw [conftestPath, show repo ++ ["tests", "conftest.py"]
              = (repo ++ ["tests"]) ++ ["conftest.py"] by simp, pathBase_append_one]
            decide)

theorem conftestStep_isFile (repo : FPath) (fs : FS) :
    fsIsFile ((conftestStep repo false fs).1) (conftestPath repo) = true := by
  rw [conftestStep]
  by_cases hc : fsIsFile fs (conftestPath repo) = true
  · rw [if_pos hc]
    exact hc
  · rw [if_neg hc]
    simp only [Bool.false_eq_true, if_false]
    rw [fsIsFile, fsRead_fsWrite, if_pos rfl]
    rfl

theorem removeAux_preserves (repo : FPath) (dry : Bool) :
    ∀ (names : List String) (st : FS × Nat) (q : FPath),
      (∀ n ∈ names, q ≠ testDest repo n) →
      fsRead ((names.foldl
        (fun acc n =>
          if fsIsFile acc.1 (testDest repo n) then
            ((if dry then acc.1 else fsRemove acc.1 (testDest repo n)), acc.2 + 1)
          else acc) st).1) q = fsRead st.1 q := by
  intro names
  induction names with
  | nil =>
    intro st q _
    rfl
  | cons n rest ih =>
    intro st q hq
    rw [List.foldl_cons]
    rw [ih _ q (fun m hm => hq m (List.mem_cons_of_mem _ hm))]
    by_cases hf : fsIsFile st.1 (testDest repo n) = true
    · rw [if_pos hf]
      dsimp only
      cases dry with
      | true => rfl
      | false =>
        simp only [Bool.false_eq_true, if_false]
        exact fsRead_fsRemove st.1 _ q (hq n (List.mem_cons_self _ _))
    · rw [if_neg hf]

theorem removeAux_pyproject (repo : FPath) (dry : Bool) :
    ∀ (names : List String) (st : FS × Nat),
      (∀ n ∈ names, ¬ n = "pyproject.toml") →
      repo_has_pyproject_toml repo ((names.foldl
        (fun acc n =>
          if fsIsFile acc.1 (testDest repo n) then
            ((if dry then acc.1 else fsRemove acc.1 (testDest repo n)), acc.2 + 1)
          else acc) st).1) = repo_has_pyproject_toml repo st.1 := by
  intro names
  induction names with
  | nil =>
    intro st _
    rfl
  | cons n rest ih =>
    intro st hn
    rw [List.foldl_cons]
    rw [ih _ (fun m hm => hn m (List.mem_cons_of_mem _ hm))]
    by_cases hf : fsIsFile st.1 (testDest repo n) = true
    · rw [if_pos hf]
      dsimp only
      cases dry with
      | true => rfl
      | false =>
        simp only [Bool.false_eq_true, if_false]
        refine repo_has_pyproject_fsRemove repo st.1 _ ?_
        rw [testDest, show repo ++ ["tests", n] = (repo ++ ["tests"]) ++ [n] by simp,
          pathBase_append_one]
        exact hn n (List.mem_cons_self _ _)
    · rw [if_neg hf]

theorem removeDeprecatedTestsFS_preserves (repo : FPath) (dry : Bool) (fs : FS) (q : FPath)
    (h : ∀ n ∈ DEPRECATED_TEST_SCRIPTS, q ≠ testDest repo n) :
    fsRead ((removeDeprecatedTestsFS repo dry fs).1) q = fsRead fs q :=
  removeAux_preserves repo dry DEPRECATED_TEST_SCRIPTS (fs, 0) q h

theorem removeDeprecatedTestsFS_pyproject (repo : FPath) (dry : Bool) (fs : FS) :
    repo_has_pyproject_toml repo (removeDeprecatedTestsFS repo dry fs).1
      = repo_has_pyproject_toml repo fs :=
  removeAux_pyproject repo dry DEPRECATED_TEST_SCRIPTS (fs, 0) (by decide)

theorem changelogStep_preserves (repo : FPath) (dry : Bool) (fs : FS) (q : FPath)
    (h : q ≠ changelogPath repo) :
    fsRead ((changelogStep repo dry fs).1) q = fsRead fs q := by
  rw [changelogStep]
  by_cases hc : fsIsFile fs (changelogPath repo) = true
  · rw [if_pos hc]
  · rw [if_neg hc]
    dsimp only
    cases dry with
    | true => rfl
    | false =>
      simp only [Bool.false_eq_true, if_false]
      rw [fsRead_fsWrite, if_neg h]

theorem changelogStep_pyproject (repo : FPath) (dry : Bool) (fs : FS) :
    repo_has_pyproject_toml repo (changelogStep repo dry fs).1
      = repo_has_pyproject_toml repo fs := by
  rw [changelogStep]
  by_cases hc : fsIsFile fs (changelogPath repo) = true
  · rw [if_pos hc]
  · rw [if_neg hc]
    dsimp only
    cases dry with
    | true => rfl
    | false =>
      simp only [Bool.false_eq_true, if_false]
      exact repo_has_pyproject_fsWrite repo fs _ []
        (by rw [changelogPath, show repo ++ ["docs", "CHANGELOG.md"]
              = (repo ++ ["docs"]) ++ ["CHANGELOG.md"] by simp, pathBase_append_one]
            decide)

theorem agentsStep_cases (repo : FPath) (isMacos dry : Bool) (fs : FS) :
    agentsStep repo isMacos dry fs = fs
    ∨ ∃ c, agentsStep repo isMacos dry fs = fsWrite fs (agentsPath repo) c := by
  rw [agentsStep]
  cases fsRead fs (agentsPath repo) with
  | none =>
    dsimp only
    split
    · exact Or.inl rfl
    · exact Or.inr ⟨_, rfl⟩
  | some c =>
    dsimp only
    split
    · exact Or.inr ⟨_, rfl⟩
    · exact Or.inl rfl

theorem agentsStep_preserves (repo : FPath) (isMacos dry : Bool) (fs : FS) (q : FPath)
    (h : q ≠ agentsPath repo) :
    fsRead (agentsStep repo isMacos dry fs) q = fsRead fs q := by
  rcases agentsStep_cases repo isMacos dry fs with hc | ⟨c, hc⟩
  · rw [hc]
  · rw [hc, fsRead_fsWrite, if_neg h]

theorem agentsStep_pyproject (repo : FPath) (isMacos dry : Bool) (fs : FS) :
    repo_has_pyproject_toml repo (agentsStep repo isMacos dry fs)
      = repo_has_pyproject_toml repo fs := by
  rcases agentsStep_cases repo isMacos dry fs with hc | ⟨c, hc⟩
  · rw [hc]
  · rw [hc]
    exact repo_has_pyproject_fsWrite repo fs _ _
      (by rw [agentsPath, pathBase_append_one]; decide)

end Propagate

namespace Propagate

theorem destsNe (repo : FPath) {a x b y : String} (h : ¬ (a = b ∧ x = y)) :
    repo ++ [a, x] ≠ repo ++ [b, y] :=
  fun hc => h ((append_two_eq_iff repo a x b y).mp hc)

theorem two_ne_one (repo : FPath) (a b x : String) :
    repo ++ [a, b] ≠ repo ++ [x] :=
  fun hc => append_one_ne_two repo x a b hc.symm

end Propagate

namespace Propagate

theorem processRepo_run (repo : FPath)
    (stylePairs testPairs develPairs : List (String × FPath))
    (isMacos : Bool) (fs : FS)
    (H1 : stylePairs.map Prod.fst = STYLE_FILES)
    (H2 : develPairs.map Prod.fst = DEVEL_SCRIPTS)
    (H3 : (testPairs.map Prod.fst).Nodup)
    (H4 : ∀ f ∈ testPairs.map Prod.fst,
        (f ∈ TEST_SCRIPTS ∨ (strStartsWith f "test_" = true ∧ strEndsWith f ".py" = true))
        ∧ ¬ f ∈ DEPRECATED_TEST_SCRIPTS)
    (H5 : ∀ pr ∈ stylePairs ++ testPairs ++ develPairs, fsIsFile fs pr.2 = true)
    (H6s : ∀ pr ∈ stylePairs, pr.2 = styleDest repo pr.1 ∨ repo.isPrefixOf pr.2 = false)
    (H6t : ∀ pr ∈ testPairs, pr.2 = testDest repo pr.1 ∨ repo.isPrefixOf pr.2 = false)
    (H6d : ∀ pr ∈ develPairs, pr.2 = develDest repo pr.1 ∨ repo.isPrefixOf pr.2 = false) :
    (processRepo repo stylePairs testPairs develPairs isMacos false fs).styleOut
        = stylePairs.map (fun pr => (pr.1, syncOutcomePure fs pr.2 (styleDest repo pr.1)))
    ∧ (processRepo repo stylePairs testPairs develPairs isMacos false fs).testOut
        = testPairs.map (fun pr => (pr.1, syncOutcomePure fs pr.2 (testDest repo pr.1)))
    ∧ (processRepo repo stylePairs testPairs develPairs isMacos false fs).develOut
        = develPairs.map (fun pr => (pr.1,
            match (if decide (pr.1 = "submit_to_pypi.py")
                && !(repo_has_pyproject_toml repo fs)
                then some SyncOutcome.skipNoPyproject else none) with
            | some o => o
            | none => syncOutcomePure fs pr.2 (develDest repo pr.1)))
    ∧ (∀ pr ∈ stylePairs, pr.2 ≠ styleDest repo pr.1 →
        fsRead (processRepo repo stylePairs testPairs develPairs isMacos false fs).fs
            (styleDest repo pr.1) = fsRead fs pr.2
        ∧ fsRead (processRepo repo stylePairs testPairs develPairs isMacos false fs).fs
            pr.2 = fsRead fs pr.2)
    ∧ (∀ pr ∈ testPairs, pr.2 ≠ testDest repo pr.1 →
        fsRead (processRepo repo stylePairs testPairs develPairs isMacos false fs).fs
            (testDest repo pr.1) = fsRead fs pr.2
        ∧ fsRead (processRepo repo stylePairs testPairs develPairs isMacos false fs).fs
            pr.2 = fsRead fs pr.2)
    ∧ (∀ pr ∈ develPairs,
        (if decide (pr.1 = "submit_to_pypi.py") && !(repo_has_pyproject_toml repo fs)
          then some SyncOutcome.skipNoPyproject else none) = none →
        pr.2 ≠ develDest repo pr.1 →
        fsRead (processRepo repo stylePairs testPairs develPairs isMacos false fs).fs
            (develDest repo pr.1) = fsRead fs pr.2
        ∧ fsRead (processRepo repo stylePairs testPairs develPairs isMacos false fs).fs
            pr.2 = fsRead fs pr.2)
    ∧ (∀ pr ∈ stylePairs, pr.2 = styleDest repo pr.1 →
        fsRead (processRepo repo stylePairs testPairs develPairs isMacos false fs).fs
            (styleDest repo pr.1) = fsRead fs (styleDest repo pr.1))
    ∧ (∀ pr ∈ testPairs, pr.2 = testDest repo pr.1 →
        fsRead (processRepo repo stylePairs testPairs develPairs isMacos false fs).fs
            (testDest repo pr.1) = fsRead fs (testDest repo pr.1))
    ∧ (∀ pr ∈ develPairs,
        (pr.2 = develDest repo pr.1
          ∨ (if decide (pr.1 = "submit_to_pypi.py") && !(repo_has_pyproject_toml repo fs)
              then some SyncOutcome.skipNoPyproject else none) ≠ none) →
        fsRead (processRepo repo stylePairs testPairs develPairs isMacos false fs).fs
            (develDest repo pr.1) = fsRead fs (develDest repo pr.1))
    ∧ repo_has_pyproject_toml repo
        (processRepo repo stylePairs testPairs develPairs isMacos false fs).fs
        = repo_has_pyproject_toml repo fs
    ∧ fsIsFile (processRepo repo stylePairs testPairs develPairs isMacos false fs).fs
        (conftestPath repo) = true
    ∧ (∀ pr ∈ stylePairs ++ testPairs ++ develPairs,
        fsIsFile (processRepo repo stylePairs testPairs develPairs isMacos false fs).fs
          pr.2 = true) := by
  -- name facts derived from the hypotheses
  have hsname : ∀ pr ∈ stylePairs, pr.1 ∈ STYLE_FILES := by
    intro pr hpr
    rw [← H1]
    exact List.mem_map_of_mem Prod.fst hpr
  have hdname : ∀ pr ∈ develPairs, pr.1 ∈ DEVEL_SCRIPTS := by
    intro pr hpr
    rw [← H2]
    exact List.mem_map_of_mem Prod.fst hpr
  have htname : ∀ pr ∈ testPairs,
      (pr.1 ∈ TEST_SCRIPTS ∨ (strStartsWith pr.1 "test_" = true
        ∧ strEndsWith pr.1 ".py" = true)) ∧ ¬ pr.1 ∈ DEPRECATED_TEST_SCRIPTS :=
    fun pr hpr => H4 pr.1 (List.mem_map_of_mem Prod.fst hpr)
  have hSfacts : ∀ f ∈ STYLE_FILES, f ≠ "CHANGELOG.md" ∧ f ≠ "pyproject.toml" := by decide
  have hDfacts : ∀ f ∈ DEVEL_SCRIPTS, f ≠ "pyproject.toml" := by decide
  have hTfacts : ∀ f ∈ TEST_SCRIPTS, f ≠ "conftest.py" ∧ f ≠ "pyproject.toml" := by decide
  have hsCHG : ∀ pr ∈ stylePairs, pr.1 ≠ "CHANGELOG.md" :=
    fun pr hpr => (hSfacts pr.1 (hsname pr hpr)).1
  have hsPy : ∀ pr ∈ stylePairs, pr.1 ≠ "pyproject.toml" :=
    fun pr hpr => (hSfacts pr.1 (hsname pr hpr)).2
  have hdPy : ∀ pr ∈ develPairs, pr.1 ≠ "pyproject.toml" :=
    fun pr hpr => hDfacts pr.1 (hdname pr hpr)
  have htconf : ∀ pr ∈ testPairs, pr.1 ≠ "conftest.py" := by
    intro pr hpr hbad
    rcases (htname pr hpr).1 with h | h
    · exact (hTfacts pr.1 h).1 hbad
    · rw [hbad] at h
      exact absurd h.1 (by decide)
  have htPy : ∀ pr ∈ testPairs, pr.1 ≠ "pyproject.toml" := by
    intro pr hpr hbad
    rcases (htname pr hpr).1 with h | h
    · exact (hTfacts pr.1 h).2 hbad
    · rw [hbad] at h
      exact absurd h.1 (by decide)
  have htdepr : ∀ pr ∈ testPairs, ¬ pr.1 ∈ DEPRECATED_TEST_SCRIPTS :=
    fun pr hpr => (htname pr hpr).2
  have hDEPRconf : ∀ n ∈ DEPRECATED_TEST_SCRIPTS, n ≠ "conftest.py" := by decide
  -- destination Nodup facts
  have hsdnodup : (stylePairs.map (fun pr => styleDest repo pr.1)).Nodup := by
    have heq : stylePairs.map (fun pr => styleDest repo pr.1)
        = (stylePairs.map Prod.fst).map (fun f => styleDest repo f) := by
      rw [List.map_map]
      rfl
    rw [heq, H1]
    refine (by decide : STYLE_FILES.Nodup).map ?_
    intro a b h
    exact ((append_two_eq_iff repo "docs" a "docs" b).mp h).2
  have htdnodup : (testPairs.map (fun pr => testDest repo pr.1)).Nodup := by
    have heq : testPairs.map (fun pr => testDest repo pr.1)
        = (testPairs.map Prod.fst).map (fun f => testDest repo f) := by
      rw [List.map_map]
      rfl
    rw [heq]
    refine H3.map ?_
    intro a b h
    exact ((append_two_eq_iff repo "tests" a "tests" b).mp h).2
  have hddnodup : (develPairs.map (fun pr => develDest repo pr.1)).Nodup := by
    have heq : develPairs.map (fun pr => develDest repo pr.1)
        = (develPairs.map Prod.fst).map (fun f => develDest repo f) := by
      rw [List.map_map]
      rfl
    rw [heq, H2]
    refine (by decide : DEVEL_SCRIPTS.Nodup).map ?_
    intro a b h
    exact ((append_two_eq_iff repo "devel" a "devel" b).mp h).2
  -- unfold and abbreviate
  simp only [processRepo]
  set V := repo_has_pyproject_toml repo fs with hV
  set fs1 := (processGitignoreFS repo false fs).2 with hfs1
  set fs2 := (conftestStep repo false fs1).1 with hfs2
  set fs3 := (removeDeprecatedTestsFS repo false fs2).1 with hfs3
  set fs4 := (changelogStep repo false fs3).1 with hfs4
  set rs := syncFold false (fun _ _ => none) (styleDest repo) stylePairs fs4 with hrs
  set repoPy := repo_has_python_files repo rs.2.1 with hrepoPy
  set rt := syncFold false
      (fun _ f => if strStartsWith f "test_" && strEndsWith f ".py" && !repoPy
        then some SyncOutcome.skipNoPython else none)
      (testDest repo) testPairs rs.2.1 with hrt
  set rd := syncFold false
      (fun fsc f => if decide (f = "submit_to_pypi.py")
          && !(repo_has_pyproject_toml repo fsc)
        then some SyncOutcome.skipNoPyproject else none)
      (develDest repo) develPairs rt.2.1 with hrd
  set fs5 := agentsStep repo isMacos false rd.2.1 with hfs5
  -- read preservation through the four preliminary steps
  have hpre4 : ∀ q : FPath, q ≠ gitignorePath repo → q ≠ conftestPath repo →
      (∀ n ∈ DEPRECATED_TEST_SCRIPTS, q ≠ testDest repo n) → q ≠ changelogPath repo →
      fsRead fs4 q = fsRead fs q := by
    intro q h1 h2 h3 h4
    rw [hfs4, changelogStep_preserves repo false fs3 q h4,
        hfs3, removeDeprecatedTestsFS_preserves repo false fs2 q h3,
        hfs2, conftestStep_preserves repo false fs1 q h2,
        hfs1, processGitignoreFS_preserves repo false fs q h1]
  have hq_np : ∀ q : FPath, repo.isPrefixOf q = false →
      ∀ l : FPath, q ≠ repo ++ l :=
    fun q hq l => ne_append_of_not_prefix hq l
  -- disequality kits for the three destination families
  have hSdk : ∀ pr ∈ stylePairs,
      styleDest repo pr.1 ≠ gitignorePath repo
      ∧ styleDest repo pr.1 ≠ conftestPath repo
      ∧ (∀ n ∈ DEPRECATED_TEST_SCRIPTS, styleDest repo pr.1 ≠ testDest repo n)
      ∧ styleDest repo pr.1 ≠ changelogPath repo
      ∧ (∀ qr ∈ testPairs, styleDest repo pr.1 ≠ testDest repo qr.1)
      ∧ (∀ qr ∈ develPairs, styleDest repo pr.1 ≠ develDest repo qr.1)
      ∧ styleDest repo pr.1 ≠ agentsPath repo := by
    intro pr _
    refine ⟨two_ne_one repo "docs" pr.1 ".gitignore",
      destsNe repo (fun hc => absurd hc.1 (by decide)),
      fun n _ => destsNe repo (fun hc => absurd hc.1 (by decide)),
      destsNe repo (fun hc => hsCHG pr (by assumption) hc.2),
      fun qr _ => destsNe repo (fun hc => absurd hc.1 (by decide)),
      fun qr _ => destsNe repo (fun hc => absurd hc.1 (by decide)),
      two_ne_one repo "docs" pr.1 "AGENTS.md"⟩
  have hTdk : ∀ pr ∈ testPairs,
      testDest repo pr.1 ≠ gitignorePath repo
      ∧ testDest repo pr.1 ≠ conftestPath repo
      ∧ (∀ n ∈ DEPRECATED_TEST_SCRIPTS, testDest repo pr.1 ≠ testDest repo n)
      ∧ testDest repo pr.1 ≠ changelogPath repo
      ∧ (∀ qr ∈ stylePairs, testDest repo pr.1 ≠ styleDest repo qr.1)
      ∧ (∀ qr ∈ develPairs, testDest repo pr.1 ≠ develDest repo qr.1)
      ∧ testDest repo pr.1 ≠ agentsPath repo := by
    intro pr hpr
    refine ⟨two_ne_one repo "tests" pr.1 ".gitignore",
      destsNe repo (fun hc => htconf pr hpr hc.2),
      fun n hn => destsNe repo (fun hc => htdepr pr hpr (hc.2 ▸ hn)),
      destsNe repo (fun hc => absurd hc.1 (by decide)),
      fun qr _ => destsNe repo (fun hc => absurd hc.1 (by decide)),
      fun qr _ => destsNe repo (fun hc => absurd hc.1 (by decide)),
      two_ne_one repo "tests" pr.1 "AGENTS.md"⟩
  have hDdk : ∀ pr ∈ develPairs,
      develDest repo pr.1 ≠ gitignorePath repo
      ∧ develDest repo pr.1 ≠ conftestPath repo
      ∧ (∀ n ∈ DEPRECATED_TEST_SCRIPTS, develDest repo pr.1 ≠ testDest repo n)
      ∧ develDest repo pr.1 ≠ changelogPath repo
      ∧ (∀ qr ∈ stylePairs, develDest repo pr.1 ≠ styleDest repo qr.1)
      ∧ (∀ qr ∈ testPairs, develDest repo pr.1 ≠ testDest repo qr.1)
      ∧ develDest repo pr.1 ≠ agentsPath repo := by
    intro pr _
    refine ⟨two_ne_one repo "devel" pr.1 ".gitignore",
      destsNe repo (fun hc => absurd hc.1 (by decide)),
      fun n _ => destsNe repo (fun hc => absurd hc.1 (by decide)),
      destsNe repo (fun hc => absurd hc.1 (by decide)),
      fun qr _ => destsNe repo (fun hc => absurd hc.1 (by decide)),
      fun qr _ => destsNe repo (fun hc => absurd hc.1 (by decide)),
      two_ne_one repo "devel" pr.1 "AGENTS.md"⟩
  -- pyproject value survives the preliminary steps
  have hV4 : repo_has_pyproject_toml repo fs4 = V := by
    rw [hfs4, changelogStep_pyproject, hfs3, removeDeprecatedTestsFS_pyproject,
        hfs2, conftestStep_pyproject, hfs1, processGitignoreFS_pyproject, hV]
  -- the styles synchronisation
  have hsafeS : ∀ pr ∈ stylePairs, pr.2 = styleDest repo pr.1
      ∨ ∀ qr ∈ stylePairs, pr.2 ≠ styleDest repo qr.1 := by
    intro pr hpr
    rcases H6s pr hpr with h | h
    · exact Or.inl h
    · exact Or.inr (fun qr _ => hq_np pr.2 h _)
  have hsomeS : ∀ pr ∈ stylePairs, pr.2 ≠ styleDest repo pr.1 →
      (fsRead fs4 pr.2).isSome = true := by
    intro pr hpr hne
    rcases H6s pr hpr with h | h
    · exact absurd h hne
    · rw [hpre4 pr.2 (hq_np pr.2 h _) (hq_np pr.2 h _)
        (fun n _ => hq_np pr.2 h _) (hq_np pr.2 h _)]
      exact H5 pr (List.mem_append_left _ (List.mem_append_left _ hpr))
  have hPwS : ∀ fsx p c, repo_has_pyproject_toml repo fsx = V →
      (∃ pr ∈ stylePairs, p = styleDest repo pr.1) →
      repo_has_pyproject_toml repo (fsWrite fsx p c) = V := by
    rintro fsx p c hfx ⟨pr, hpr, rfl⟩
    have hb : ¬ pathBase (styleDest repo pr.1) = "pyproject.toml" := by
      rw [styleDest, show repo ++ ["docs", pr.1] = (repo ++ ["docs"]) ++ [pr.1] by simp,
        pathBase_append_one]
      exact hsPy pr hpr
    rw [repo_has_pyproject_fsWrite repo fsx _ c hb, hfx]
  rcases syncFold_run (fun _ _ => none) (styleDest repo) (fun _ => none)
      (fun fsx => repo_has_pyproject_toml repo fsx = V) stylePairs fs4
      hV4 hPwS (fun _ _ _ => rfl) hsdnodup hsafeS hsomeS with ⟨hsa, hsb, hsc, hsd⟩
  rw [← hrs] at hsa hsb hsc hsd
  -- conftest is present when the test gate is computed
  have hcf2 : fsIsFile fs2 (conftestPath repo) = true := by
    rw [hfs2]
    exact conftestStep_isFile repo fs1
  have hcf4read : fsRead fs4 (conftestPath repo) = fsRead fs2 (conftestPath repo) := by
    rw [hfs4, changelogStep_preserves repo false fs3 (conftestPath repo)
        (destsNe repo (fun hc => absurd hc.1 (by decide))),
      hfs3, removeDeprecatedTestsFS_preserves repo false fs2 (conftestPath repo)
        (fun n hn => destsNe repo (fun hc => hDEPRconf n hn hc.2.symm))]
  have hcfrs : fsRead rs.2.1 (conftestPath repo) = fsRead fs2 (conftestPath repo) := by
    rw [hrs, syncFold_preserves false (fun _ _ => none) (styleDest repo) stylePairs fs4
      (conftestPath repo)
      (fun pr _ => destsNe repo (fun hc => absurd hc.1 (by decide))), hcf4read]
  have hrepoPyT : repoPy = true := by
    rw [hrepoPy]
    refine repo_has_python_of_isFile repo rs.2.1 (conftestPath repo) ?_ ?_ ?_
    · rw [fsIsFile, hcfrs]
      rw [fsIsFile] at hcf2
      exact hcf2
    · exact walkVisible_append_two repo "tests" "conftest.py" (by decide)
    · have hb : pathBase (conftestPath repo) = "conftest.py" := by
        rw [conftestPath]
        exact pathBase_append_two repo "tests" "conftest.py"
      rw [hb]
      decide
  -- the test-script synchronisation: the gate never fires in a real run
  have hgT : ∀ fsx f, repo_has_pyproject_toml repo fsx = V →
      (if strStartsWith f "test_" && strEndsWith f ".py" && !repoPy
        then some SyncOutcome.skipNoPython else none) = (fun _ => none : String → Option SyncOutcome) f := by
    intro fsx f _
    rw [hrepoPyT]
    simp
  have hsafeT : ∀ pr ∈ testPairs, pr.2 = testDest repo pr.1
      ∨ ∀ qr ∈ testPairs, pr.2 ≠ testDest repo qr.1 := by
    intro pr hpr
    rcases H6t pr hpr with h | h
    · exact Or.inl h
    · exact Or.inr (fun qr _ => hq_np pr.2 h _)
  have hreadT : ∀ pr ∈ testPairs, pr.2 ≠ testDest repo pr.1 →
      fsRead rs.2.1 pr.2 = fsRead fs pr.2 := by
    intro pr hpr hne
    rcases H6t pr hpr with h | h
    · exact absurd h hne
    · rw [hrs, syncFold_preserves false (fun _ _ => none) (styleDest repo) stylePairs fs4
        pr.2 (fun qr _ => hq_np pr.2 h _)]
      exact hpre4 pr.2 (hq_np pr.2 h _) (hq_np pr.2 h _)
        (fun n _ => hq_np pr.2 h _) (hq_np pr.2 h _)
  have hreadTdest : ∀ pr ∈ testPairs,
      fsRead rs.2.1 (testDest repo pr.1) = fsRead fs (testDest repo pr.1) := by
    intro pr hpr
    rcases hTdk pr hpr with ⟨h1, h2, h3, h4, h5, _, _⟩
    rw [hrs, syncFold_preserves false (fun _ _ => none) (styleDest repo) stylePairs fs4
      (testDest repo pr.1) (fun qr hqr => h5 qr hqr)]
    exact hpre4 _ h1 h2 h3 h4
  have hsomeT : ∀ pr ∈ testPairs, pr.2 ≠ testDest repo pr.1 →
      (fsRead rs.2.1 pr.2).isSome = true := by
    intro pr hpr hne
    rw [hreadT pr hpr hne]
    exact H5 pr (List.mem_append_left _ (List.mem_append_right _ hpr))
  have hPwT : ∀ fsx p c, repo_has_pyproject_toml repo fsx = V →
      (∃ pr ∈ testPairs, p = testDest repo pr.1) →
      repo_has_pyproject_toml repo (fsWrite fsx p c) = V := by
    rintro fsx p c hfx ⟨pr, hpr, rfl⟩
    have hb : ¬ pathBase (testDest repo pr.1) = "pyproject.toml" := by
      rw [testDest, show repo ++ ["tests", pr.1] = (repo ++ ["tests"]) ++ [pr.1] by simp,
        pathBase_append_one]
      exact htPy pr hpr
    rw [repo_has_pyproject_fsWrite repo fsx _ c hb, hfx]
  rcases syncFold_run _ (testDest repo) (fun _ => none)
      (fun fsx => repo_has_pyproject_toml repo fsx = V) testPairs rs.2.1
      hsc hPwT hgT htdnodup hsafeT hsomeT with ⟨hta, htb, htc, htd⟩
  rw [← hrt] at hta htb htc htd
  -- generic read-preservation through each fold
  have hrs_keep : ∀ q : FPath, (∀ qr ∈ stylePairs, q ≠ styleDest repo qr.1) →
      fsRead rs.2.1 q = fsRead fs4 q := by
    intro q hq
    rw [hrs]
    exact syncFold_preserves false (fun _ _ => none) (styleDest repo) stylePairs fs4 q hq
  have hrt_keep : ∀ q : FPath, (∀ qr ∈ testPairs, q ≠ testDest repo qr.1) →
      fsRead rt.2.1 q = fsRead rs.2.1 q := by
    intro q hq
    rw [hrt]
    exact syncFold_preserves false
      (fun _ f => if strStartsWith f "test_" && strEndsWith f ".py" && !repoPy
        then some SyncOutcome.skipNoPython else none)
      (testDest repo) testPairs rs.2.1 q hq
  -- the devel-script synchronisation
  have hgD : ∀ fsx f, repo_has_pyproject_toml repo fsx = V →
      (if decide (f = "submit_to_pypi.py") && !(repo_has_pyproject_toml repo fsx)
        then some SyncOutcome.skipNoPyproject else none)
      = (if decide (f = "submit_to_pypi.py") && !V
        then some SyncOutcome.skipNoPyproject else none) := by
    intro fsx f hfx
    rw [hfx]
  have hsafeD : ∀ pr ∈ develPairs, pr.2 = develDest repo pr.1
      ∨ ∀ qr ∈ develPairs, pr.2 ≠ develDest repo qr.1 := by
    intro pr hpr
    rcases H6d pr hpr with h | h
    · exact Or.inl h
    · exact Or.inr (fun qr _ => hq_np pr.2 h _)
  have hreadD : ∀ pr ∈ develPairs, pr.2 ≠ develDest repo pr.1 →
      fsRead rt.2.1 pr.2 = fsRead fs pr.2 := by
    intro pr hpr hne
    rcases H6d pr hpr with h | h
    · exact absurd h hne
    · rw [hrt_keep pr.2 (fun qr _ => hq_np pr.2 h _),
        hrs_keep pr.2 (fun qr _ => hq_np pr.2 h _)]
      exact hpre4 pr.2 (hq_np pr.2 h _) (hq_np pr.2 h _)
        (fun n _ => hq_np pr.2 h _) (hq_np pr.2 h _)
  have hreadDdest : ∀ pr ∈ develPairs,
      fsRead rt.2.1 (develDest repo pr.1) = fsRead fs (develDest repo pr.1) := by
    intro pr hpr
    rcases hDdk pr hpr with ⟨h1, h2, h3, h4, h5, h6, _⟩
    rw [hrt_keep _ (fun qr hqr => h6 qr hqr), hrs_keep _ (fun qr hqr => h5 qr hqr)]
    exact hpre4 _ h1 h2 h3 h4
  have hsomeD : ∀ pr ∈ develPairs, pr.2 ≠ develDest repo pr.1 →
      (fsRead rt.2.1 pr.2).isSome = true := by
    intro pr hpr hne
    rw [hreadD pr hpr hne]
    exact H5 pr (List.mem_append_right _ hpr)
  have hPwD : ∀ fsx p c, repo_has_pyproject_toml repo fsx = V →
      (∃ pr ∈ develPairs, p = develDest repo pr.1) →
      repo_has_pyproject_toml repo (fsWrite fsx p c) = V := by
    rintro fsx p c hfx ⟨pr, hpr, rfl⟩
    have hb : ¬ pathBase (develDest repo pr.1) = "pyproject.toml" := by
      rw [develDest, show repo ++ ["devel", pr.1] = (repo ++ ["devel"]) ++ [pr.1] by simp,
        pathBase_append_one]
      exact hdPy pr hpr
    rw [repo_has_pyproject_fsWrite repo fsx _ c hb, hfx]
  rcases syncFold_run _ (develDest repo)
      (fun f => if decide (f = "submit_to_pypi.py") && !V
        then some SyncOutcome.skipNoPyproject else none)
      (fun fsx => repo_has_pyproject_toml repo fsx = V) develPairs rt.2.1
      htc hPwD hgD hddnodup hsafeD hsomeD with ⟨hda, hdb, hdc, hdd⟩
  rw [← hrd] at hda hdb hdc hdd
  -- read preservation through the devel fold and the AGENTS.md step
  have hrd_keep : ∀ q : FPath, (∀ qr ∈ develPairs, q ≠ develDest repo qr.1) →
      fsRead rd.2.1 q = fsRead rt.2.1 q := by
    intro q hq
    rw [hrd]
    exact syncFold_preserves false
      (fun fsc f => if decide (f = "submit_to_pypi.py")
          && !(repo_has_pyproject_toml repo fsc)
        then some SyncOutcome.skipNoPyproject else none)
      (develDest repo) develPairs rt.2.1 q hq
  have hfs5_keep : ∀ q : FPath, q ≠ agentsPath repo →
      fsRead fs5 q = fsRead rd.2.1 q := by
    intro q hq
    rw [hfs5]
    exact agentsStep_preserves repo isMacos false rd.2.1 q hq
  have hkeepS : ∀ q : FPath,
      (∀ qr ∈ testPairs, q ≠ testDest repo qr.1) →
      (∀ qr ∈ develPairs, q ≠ develDest repo qr.1) →
      q ≠ agentsPath repo →
      fsRead fs5 q = fsRead rs.2.1 q := by
    intro q h1 h2 h3
    rw [hfs5_keep q h3, hrd_keep q h2, hrt_keep q h1]
  have hkeepT : ∀ q : FPath,
      (∀ qr ∈ develPairs, q ≠ develDest repo qr.1) →
      q ≠ agentsPath repo →
      fsRead fs5 q = fsRead rt.2.1 q := by
    intro q h2 h3
    rw [hfs5_keep q h3, hrd_keep q h2]
  have hkeep_np : ∀ q : FPath, repo.isPrefixOf q = false →
      fsRead fs5 q = fsRead fs q := by
    intro q hnp
    rw [hfs5_keep q (hq_np q hnp _), hrd_keep q (fun qr _ => hq_np q hnp _),
      hrt_keep q (fun qr _ => hq_np q hnp _), hrs_keep q (fun qr _ => hq_np q hnp _)]
    exact hpre4 q (hq_np q hnp _) (hq_np q hnp _) (fun n _ => hq_np q hnp _)
      (hq_np q hnp _)
  -- the establishment facts at the final filesystem
  have hestS : ∀ pr ∈ stylePairs, pr.2 ≠ styleDest repo pr.1 →
      fsRead fs5 (styleDest repo pr.1) = fsRead fs pr.2
      ∧ fsRead fs5 pr.2 = fsRead fs pr.2 := by
    intro pr hpr hne
    have hnp : repo.isPrefixOf pr.2 = false := by
      rcases H6s pr hpr with h | h
      · exact absurd h hne
      · exact h
    rcases hSdk pr hpr with ⟨_, _, _, _, h5, h6, h7⟩
    rcases hsb pr hpr rfl hne with ⟨hb1, hb2⟩
    have hsrc4 : fsRead fs4 pr.2 = fsRead fs pr.2 :=
      hpre4 pr.2 (hq_np pr.2 hnp _) (hq_np pr.2 hnp _)
        (fun n _ => hq_np pr.2 hnp _) (hq_np pr.2 hnp _)
    constructor
    · rw [hkeepS (styleDest repo pr.1) h5 h6 h7, hb1, hsrc4]
    · rw [hkeepS pr.2 (fun qr _ => hq_np pr.2 hnp _) (fun qr _ => hq_np pr.2 hnp _)
        (hq_np pr.2 hnp _), hb2, hsrc4]
  have hestT : ∀ pr ∈ testPairs, pr.2 ≠ testDest repo pr.1 →
      fsRead fs5 (testDest repo pr.1) = fsRead fs pr.2
      ∧ fsRead fs5 pr.2 = fsRead fs pr.2 := by
    intro pr hpr hne
    have hnp : repo.isPrefixOf pr.2 = false := by
      rcases H6t pr hpr with h | h
      · exact absurd h hne
      · exact h
    rcases hTdk pr hpr with ⟨_, _, _, _, _, h6, h7⟩
    rcases htb pr hpr rfl hne with ⟨hb1, hb2⟩
    have hsrcR : fsRead rs.2.1 pr.2 = fsRead fs pr.2 := hreadT pr hpr hne
    constructor
    · rw [hkeepT (testDest repo pr.1) h6 h7, hb1, hsrcR]
    · rw [hkeepT pr.2 (fun qr _ => hq_np pr.2 hnp _) (hq_np pr.2 hnp _), hb2, hsrcR]
  have hestD : ∀ pr ∈ develPairs,
      (if decide (pr.1 = "submit_to_pypi.py") && !V
        then some SyncOutcome.skipNoPyproject else none) = none →
      pr.2 ≠ develDest repo pr.1 →
      fsRead fs5 (develDest repo pr.1) = fsRead fs pr.2
      ∧ fsRead fs5 pr.2 = fsRead fs pr.2 := by
    intro pr hpr hgnone hne
    have hnp : repo.isPrefixOf pr.2 = false := by
      rcases H6d pr hpr with h | h
      · exact absurd h hne
      · exact h
    rcases hDdk pr hpr with ⟨_, _, _, _, _, _, h7⟩
    rcases hdb pr hpr hgnone hne with ⟨hb1, hb2⟩
    have hsrcR : fsRead rt.2.1 pr.2 = fsRead fs pr.2 := hreadD pr hpr hne
    constructor
    · rw [hfs5_keep (develDest repo pr.1) h7, hb1, hsrcR]
    · rw [hfs5_keep pr.2 (hq_np pr.2 hnp _), hb2, hsrcR]
  -- the untouched-destination facts at the final filesystem
  have huntS : ∀ pr ∈ stylePairs, pr.2 = styleDest repo pr.1 →
      fsRead fs5 (styleDest repo pr.1) = fsRead fs (styleDest repo pr.1) := by
    intro pr hpr h
    rcases hSdk pr hpr with ⟨h1, h2, h3, h4, h5, h6, h7⟩
    rw [hkeepS (styleDest repo pr.1) h5 h6 h7, hsd pr hpr (Or.inl h),
      hpre4 _ h1 h2 h3 h4]
  have huntT : ∀ pr ∈ testPairs, pr.2 = testDest repo pr.1 →
      fsRead fs5 (testDest repo pr.1) = fsRead fs (testDest repo pr.1) := by
    intro pr hpr h
    rcases hTdk pr hpr with ⟨_, _, _, _, _, h6, h7⟩
    rw [hkeepT (testDest repo pr.1) h6 h7, htd pr hpr (Or.inl h), hreadTdest pr hpr]
  have huntD : ∀ pr ∈ develPairs,
      (pr.2 = develDest repo pr.1
        ∨ (if decide (pr.1 = "submit_to_pypi.py") && !V
            then some SyncOutcome.skipNoPyproject else none) ≠ none) →
      fsRead fs5 (develDest repo pr.1) = fsRead fs (develDest repo pr.1) := by
    intro pr hpr h
    rcases hDdk pr hpr with ⟨_, _, _, _, _, _, h7⟩
    rw [hfs5_keep (develDest repo pr.1) h7, hdd pr hpr h, hreadDdest pr hpr]
  have hpyfinal : repo_has_pyproject_toml repo fs5 = V := by
    rw [hfs5, agentsStep_pyproject, hdc]
  have hconf5 : fsIsFile fs5 (conftestPath repo) = true := by
    rw [fsIsFile,
      hfs5_keep (conftestPath repo) (two_ne_one repo "tests" "conftest.py" "AGENTS.md"),
      hrd_keep (conftestPath repo)
        (fun qr _ => destsNe repo (fun hc => absurd hc.1 (by decide))),
      hrt_keep (conftestPath repo)
        (fun qr hqr => destsNe repo (fun hc => htconf qr hqr hc.2.symm)),
      hcfrs]
    rw [fsIsFile] at hcf2
    exact hcf2
  have hsrcfiles : ∀ pr ∈ stylePairs ++ testPairs ++ develPairs,
      fsIsFile fs5 pr.2 = true := by
    intro pr hpr
    have hH5 : (fsRead fs pr.2).isSome = true := by
      have hh := H5 pr hpr
      rw [fsIsFile] at hh
      exact hh
    rw [fsIsFile]
    rcases List.mem_append.mp hpr with hsp | hdp
    · rcases List.mem_append.mp hsp with hs | ht
      · rcases H6s pr hs with h | h
        · rw [h, huntS pr hs h, ← h]
          exact hH5
        · rw [hkeep_np pr.2 h]
          exact hH5
      · rcases H6t pr ht with h | h
        · rw [h, huntT pr ht h, ← h]
          exact hH5
        · rw [hkeep_np pr.2 h]
          exact hH5
    · rcases H6d pr hdp with h | h
      · rw [h, huntD pr hdp (Or.inl h), ← h]
        exact hH5
      · rw [hkeep_np pr.2 h]
        exact hH5
  refine ⟨?_, ?_, ?_, hestS, hestT, hestD, huntS, huntT, huntD,
    hpyfinal, hconf5, hsrcfiles⟩
  · rw [hsa]
    refine List.map_congr_left ?_
    intro pr hpr
    show (pr.1, syncOutcomePure fs4 pr.2 (styleDest repo pr.1))
      = (pr.1, syncOutcomePure fs pr.2 (styleDest repo pr.1))
    have hdst : fsRead fs4 (styleDest repo pr.1) = fsRead fs (styleDest repo pr.1) := by
      rcases hSdk pr hpr with ⟨h1, h2, h3, h4, _, _, _⟩
      exact hpre4 _ h1 h2 h3 h4
    have hsrc : fsRead fs4 pr.2 = fsRead fs pr.2 := by
      rcases H6s pr hpr with h | h
      · rw [h]
        exact hdst
      · exact hpre4 pr.2 (hq_np pr.2 h _) (hq_np pr.2 h _)
          (fun n _ => hq_np pr.2 h _) (hq_np pr.2 h _)
    rw [syncOutcomePure_congr fs4 fs pr.2 (styleDest repo pr.1) hsrc hdst]
  · rw [hta]
    refine List.map_congr_left ?_
    intro pr hpr
    show (pr.1, syncOutcomePure rs.2.1 pr.2 (testDest repo pr.1))
      = (pr.1, syncOutcomePure fs pr.2 (testDest repo pr.1))
    have hdst : fsRead rs.2.1 (testDest repo pr.1) = fsRead fs (testDest repo pr.1) :=
      hreadTdest pr hpr
    have hsrc : fsRead rs.2.1 pr.2 = fsRead fs pr.2 := by
      rcases H6t pr hpr with h | h
      · rw [h]
        exact hdst
      · exact hreadT pr hpr (hq_np pr.2 h _)
    rw [syncOutcomePure_congr rs.2.1 fs pr.2 (testDest repo pr.1) hsrc hdst]
  · rw [hda]
    refine List.map_congr_left ?_
    intro pr hpr
    dsimp only
    by_cases hcond : (decide (pr.1 = "submit_to_pypi.py") && !V) = true
    · rw [if_pos hcond]
    · rw [if_neg hcond]
      show (pr.1, syncOutcomePure rt.2.1 pr.2 (develDest repo pr.1))
        = (pr.1, syncOutcomePure fs pr.2 (develDest repo pr.1))
      have hdst : fsRead rt.2.1 (develDest repo pr.1)
          = fsRead fs (develDest repo pr.1) := hreadDdest pr hpr
      have hsrc : fsRead rt.2.1 pr.2 = fsRead fs pr.2 := by
        rcases H6d pr hpr with h | h
        · rw [h]
          exact hdst
        · exact hreadD pr hpr (hq_np pr.2 h _)
      rw [syncOutcomePure_congr rt.2.1 fs pr.2 (develDest repo pr.1) hsrc hdst]

end Propagate

/-! ## C2: idempotence of the synchroniser -/

namespace Propagate

/-- C2: the synchroniser is idempotent.  After one real run (`dry_run=False`)
of the per-repo body, a second real run from the resulting filesystem reports
zero `copied` and zero `updated` outcomes in every file class (styles, tests,
devel); every destination whose source is a distinct file is classified
`skip_same` on the second run, and no destination file is rewritten by the
second run.  The hypotheses say the runs are invoked as `main` invokes them:
the style and devel pair lists carry exactly the `STYLE_FILES` and
`DEVEL_SCRIPTS` names, the test names are distinct non-deprecated
`test_*.py`/`TEST_SCRIPTS` names, every source exists, and each source is
either its own destination or lies outside the repository. -/
theorem C2_second_run_idempotent (repo : FPath)
    (stylePairs testPairs develPairs : List (String × FPath))
    (isMacos : Bool) (fs : FS)
    (H1 : stylePairs.map Prod.fst = STYLE_FILES)
    (H2 : develPairs.map Prod.fst = DEVEL_SCRIPTS)
    (H3 : (testPairs.map Prod.fst).Nodup)
    (H4 : ∀ f ∈ testPairs.map Prod.fst,
        (f ∈ TEST_SCRIPTS ∨ (strStartsWith f "test_" = true ∧ strEndsWith f ".py" = true))
        ∧ ¬ f ∈ DEPRECATED_TEST_SCRIPTS)
    (H5 : ∀ pr ∈ stylePairs ++ testPairs ++ develPairs, fsIsFile fs pr.2 = true)
    (H6s : ∀ pr ∈ stylePairs, pr.2 = styleDest repo pr.1 ∨ repo.isPrefixOf pr.2 = false)
    (H6t : ∀ pr ∈ testPairs, pr.2 = testDest repo pr.1 ∨ repo.isPrefixOf pr.2 = false)
    (H6d : ∀ pr ∈ develPairs, pr.2 = develDest repo pr.1 ∨ repo.isPrefixOf pr.2 = false) :
    countO SyncOutcome.copied
      (processRepo repo stylePairs testPairs develPairs isMacos false
        (processRepo repo stylePairs testPairs develPairs isMacos false fs).fs).styleOut = 0
    ∧ countO SyncOutcome.updated
      (processRepo repo stylePairs testPairs develPairs isMacos false
        (processRepo repo stylePairs testPairs develPairs isMacos false fs).fs).styleOut = 0
    ∧ countO SyncOutcome.copied
      (processRepo repo stylePairs testPairs develPairs isMacos false
        (processRepo repo stylePairs testPairs develPairs isMacos false fs).fs).testOut = 0
    ∧ countO SyncOutcome.updated
      (processRepo repo stylePairs testPairs develPairs isMacos false
        (processRepo repo stylePairs testPairs develPairs isMacos false fs).fs).testOut = 0
    ∧ countO SyncOutcome.copied
      (processRepo repo stylePairs testPairs develPairs isMacos false
        (processRepo repo stylePairs testPairs develPairs isMacos false fs).fs).develOut = 0
    ∧ countO SyncOutcome.updated
      (processRepo repo stylePairs testPairs develPairs isMacos false
        (processRepo repo stylePairs testPairs develPairs isMacos false fs).fs).develOut = 0
    ∧ (∀ pr ∈ stylePairs, pr.2 ≠ styleDest repo pr.1 →
        (pr.1, SyncOutcome.skipSame)
          ∈ (processRepo repo stylePairs testPairs develPairs isMacos false
              (processRepo repo stylePairs testPairs develPairs isMacos false fs).fs).styleOut)
    ∧ (∀ pr ∈ testPairs, pr.2 ≠ testDest repo pr.1 →
        (pr.1, SyncOutcome.skipSame)
          ∈ (processRepo repo stylePairs testPairs develPairs isMacos false
              (processRepo repo stylePairs testPairs develPairs isMacos false fs).fs).testOut)
    ∧ (∀ pr ∈ develPairs, pr.2 ≠ develDest repo pr.1 →
        (if decide (pr.1 = "submit_to_pypi.py") && !(repo_has_pyproject_toml repo fs)
          then some SyncOutcome.skipNoPyproject else none) = none →
        (pr.1, SyncOutcome.skipSame)
          ∈ (processRepo repo stylePairs testPairs develPairs isMacos false
              (processRepo repo stylePairs testPairs develPairs isMacos false fs).fs).develOut)
    ∧ (∀ pr ∈ stylePairs,
        fsRead (processRepo repo stylePairs testPairs develPairs isMacos false
            (processRepo repo stylePairs testPairs develPairs isMacos false fs).fs).fs
            (styleDest repo pr.1)
          = fsRead (processRepo repo stylePairs testPairs develPairs isMacos false fs).fs
            (styleDest repo pr.1))
    ∧ (∀ pr ∈ testPairs,
        fsRead (processRepo repo stylePairs testPairs develPairs isMacos false
            (processRepo repo stylePairs testPairs develPairs isMacos false fs).fs).fs
            (testDest repo pr.1)
          = fsRead (processRepo repo stylePairs testPairs develPairs isMacos false fs).fs
            (testDest repo pr.1))
    ∧ (∀ pr ∈ develPairs,
        fsRead (processRepo repo stylePairs testPairs develPairs isMacos false
            (processRepo repo stylePairs testPairs develPairs isMacos false fs).fs).fs
            (develDest repo pr.1)
          = fsRead (processRepo repo stylePairs testPairs develPairs isMacos false fs).fs
            (develDest repo pr.1)) := by
  set r1fs := (processRepo repo stylePairs testPairs develPairs isMacos false fs).fs with hr1
  rcases processRepo_run repo stylePairs testPairs develPairs isMacos fs
      H1 H2 H3 H4 H5 H6s H6t H6d with
    ⟨_, _, _, est1s, est1t, est1d, _, _, _, py1, _, files1⟩
  rw [← hr1] at est1s est1t est1d py1 files1
  rcases processRepo_run repo stylePairs testPairs develPairs isMacos r1fs
      H1 H2 H3 H4 files1 H6s H6t H6d with
    ⟨ho2s, ho2t, ho2d, est2s, est2t, est2d, unt2s, unt2t, unt2d, _, _, _⟩
  rw [py1] at ho2d est2d unt2d
  have hsomeFs : ∀ pr ∈ stylePairs ++ testPairs ++ develPairs,
      (fsRead fs pr.2).isSome = true := by
    intro pr hpr
    have hh := H5 pr hpr
    rw [fsIsFile] at hh
    exact hh
  have hskipS : ∀ pr ∈ stylePairs, pr.2 ≠ styleDest repo pr.1 →
      syncOutcomePure r1fs pr.2 (styleDest repo pr.1) = SyncOutcome.skipSame := by
    intro pr hpr hne
    rcases est1s pr hpr hne with ⟨h1, h2⟩
    rcases Option.isSome_iff_exists.mp
      (hsomeFs pr (List.mem_append_left _ (List.mem_append_left _ hpr))) with ⟨c, hc⟩
    rw [syncOutcomePure, if_neg (fun hcq => hne hcq.symm), h1, h2, hc]
    show (if c = c then SyncOutcome.skipSame else SyncOutcome.updated) = SyncOutcome.skipSame
    rw [if_pos rfl]
  have hskipT : ∀ pr ∈ testPairs, pr.2 ≠ testDest repo pr.1 →
      syncOutcomePure r1fs pr.2 (testDest repo pr.1) = SyncOutcome.skipSame := by
    intro pr hpr hne
    rcases est1t pr hpr hne with ⟨h1, h2⟩
    rcases Option.isSome_iff_exists.mp
      (hsomeFs pr (List.mem_append_left _ (List.mem_append_right _ hpr))) with ⟨c, hc⟩
    rw [syncOutcomePure, if_neg (fun hcq => hne hcq.symm), h1, h2, hc]
    show (if c = c then SyncOutcome.skipSame else SyncOutcome.updated) = SyncOutcome.skipSame
    rw [if_pos rfl]
  have hskipD : ∀ pr ∈ develPairs,
      (if decide (pr.1 = "submit_to_pypi.py") && !(repo_has_pyproject_toml repo fs)
        then some SyncOutcome.skipNoPyproject else none) = none →
      pr.2 ≠ develDest repo pr.1 →
      syncOutcomePure r1fs pr.2 (develDest repo pr.1) = SyncOutcome.skipSame := by
    intro pr hpr hg hne
    rcases est1d pr hpr hg hne with ⟨h1, h2⟩
    rcases Option.isSome_iff_exists.mp
      (hsomeFs pr (List.mem_append_right _ hpr)) with ⟨c, hc⟩
    rw [syncOutcomePure, if_neg (fun hcq => hne hcq.symm), h1, h2, hc]
    show (if c = c then SyncOutcome.skipSame else SyncOutcome.updated) = SyncOutcome.skipSame
    rw [if_pos rfl]
  have hclassS : ∀ pr ∈ stylePairs,
      syncOutcomePure r1fs pr.2 (styleDest repo pr.1) = SyncOutcome.skipSource
      ∨ syncOutcomePure r1fs pr.2 (styleDest repo pr.1) = SyncOutcome.skipSame := by
    intro pr hpr
    by_cases hd : styleDest repo pr.1 = pr.2
    · left
      rw [syncOutcomePure, if_pos hd]
    · right
      exact hskipS pr hpr (fun hc => hd hc.symm)
  have hclassT : ∀ pr ∈ testPairs,
      syncOutcomePure r1fs pr.2 (testDest repo pr.1) = SyncOutcome.skipSource
      ∨ syncOutcomePure r1fs pr.2 (testDest repo pr.1) = SyncOutcome.skipSame := by
    intro pr hpr
    by_cases hd : testDest repo pr.1 = pr.2
    · left
      rw [syncOutcomePure, if_pos hd]
    · right
      exact hskipT pr hpr (fun hc => hd hc.symm)
  refine ⟨?_, ?_, ?_, ?_, ?_, ?_, ?_, ?_, ?_, ?_, ?_, ?_⟩
  · rw [ho2s]
    refine countO_eq_zero ?_
    intro x hx
    rcases List.mem_map.mp hx with ⟨pr, hpr, rfl⟩
    show ¬ syncOutcomePure r1fs pr.2 (styleDest repo pr.1) = SyncOutcome.copied
    rcases hclassS pr hpr with h | h <;> rw [h] <;> decide
  · rw [ho2s]
    refine countO_eq_zero ?_
    intro x hx
    rcases List.mem_map.mp hx with ⟨pr, hpr, rfl⟩
    show ¬ syncOutcomePure r1fs pr.2 (styleDest repo pr.1) = SyncOutcome.updated
    rcases hclassS pr hpr with h | h <;> rw [h] <;> decide
  · rw [ho2t]
    refine countO_eq_zero ?_
    intro x hx
    rcases List.mem_map.mp hx with ⟨pr, hpr, rfl⟩
    show ¬ syncOutcomePure r1fs pr.2 (testDest repo pr.1) = SyncOutcome.copied
    rcases hclassT pr hpr with h | h <;> rw [h] <;> decide
  · rw [ho2t]
    refine countO_eq_zero ?_
    intro x hx
    rcases List.mem_map.mp hx with ⟨pr, hpr, rfl⟩
    show ¬ syncOutcomePure r1fs pr.2 (testDest repo pr.1) = SyncOutcome.updated
    rcases hclassT pr hpr with h | h <;> rw [h] <;> decide
  · rw [ho2d]
    refine countO_eq_zero ?_
    intro x hx
    rcases List.mem_map.mp hx with ⟨pr, hpr, rfl⟩
    dsimp only
    by_cases hg : (decide (pr.1 = "submit_to_pypi.py")
        && !(repo_has_pyproject_toml repo fs)) = true
    · rw [if_pos hg]
      show ¬ SyncOutcome.skipNoPyproject = SyncOutcome.copied
      decide
    · rw [if_neg hg]
      show ¬ syncOutcomePure r1fs pr.2 (develDest repo pr.1) = SyncOutcome.copied
      by_cases hd : develDest repo pr.1 = pr.2
      · rw [syncOutcomePure, if_pos hd]
        decide
      · rw [hskipD pr hpr (by rw [if_neg hg]) (fun hc => hd hc.symm)]
        decide
  · rw [ho2d]
    refine countO_eq_zero ?_
    intro x hx
    rcases List.mem_map.mp hx with ⟨pr, hpr, rfl⟩
    dsimp only
    by_cases hg : (decide (pr.1 = "submit_to_pypi.py")
        && !(repo_has_pyproject_toml repo fs)) = true
    · rw [if_pos hg]
      show ¬ SyncOutcome.skipNoPyproject = SyncOutcome.updated
      decide
    · rw [if_neg hg]
      show ¬ syncOutcomePure r1fs pr.2 (develDest repo pr.1) = SyncOutcome.updated
      by_cases hd : develDest repo pr.1 = pr.2
      · rw [syncOutcomePure, if_pos hd]
        decide
      · rw [hskipD pr hpr (by rw [if_neg hg]) (fun hc => hd hc.symm)]
        decide
  · intro pr hpr hne
    rw [ho2s]
    refine List.mem_map.mpr ⟨pr, hpr, ?_⟩
    show (pr.1, syncOutcomePure r1fs pr.2 (styleDest repo pr.1))
      = (pr.1, SyncOutcome.skipSame)
    rw [hskipS pr hpr hne]
  · intro pr hpr hne
    rw [ho2t]
    refine List.mem_map.mpr ⟨pr, hpr, ?_⟩
    show (pr.1, syncOutcomePure r1fs pr.2 (testDest repo pr.1))
      = (pr.1, SyncOutcome.skipSame)
    rw [hskipT pr hpr hne]
  · intro pr hpr hne hg
    rw [ho2d]
    refine List.mem_map.mpr ⟨pr, hpr, ?_⟩
    dsimp only
    rw [hg]
    show (pr.1, syncOutcomePure r1fs pr.2 (develDest repo pr.1))
      = (pr.1, SyncOutcome.skipSame)
    rw [hskipD pr hpr hg hne]
  · intro pr hpr
    by_cases hd : pr.2 = styleDest repo pr.1
    · exact unt2s pr hpr hd
    · rcases est2s pr hpr hd with ⟨h1, _⟩
      rcases est1s pr hpr hd with ⟨g1, g2⟩
      rw [h1, g2, ← g1]
  · intro pr hpr
    by_cases hd : pr.2 = testDest repo pr.1
    · exact unt2t pr hpr hd
    · rcases est2t pr hpr hd with ⟨h1, _⟩
      rcases est1t pr hpr hd with ⟨g1, g2⟩
      rw [h1, g2, ← g1]
  · intro pr hpr
    by_cases hg : (decide (pr.1 = "submit_to_pypi.py")
        && !(repo_has_pyproject_toml repo fs)) = true
    · refine unt2d pr hpr (Or.inr ?_)
      rw [if_pos hg]
      exact Option.some_ne_none _
    · by_cases hd : pr.2 = develDest repo pr.1
      · exact unt2d pr hpr (Or.inl hd)
      · rcases est2d pr hpr (by rw [if_neg hg]) hd with ⟨h1, _⟩
        rcases est1d pr hpr (by rw [if_neg hg]) hd with ⟨g1, g2⟩
        rw [h1, g2, ← g1]

/-- Witness for C2 at a concrete repository and source tree: the second run
reports zero copies among the style files and zero updates among the test
scripts. -/
theorem C2_witness :
    countO SyncOutcome.copied
      (processRepo C2repo C2sp C2tp C2dp false false
        (processRepo C2repo C2sp C2tp C2dp false false C2fs).fs).styleOut = 0
    ∧ countO SyncOutcome.updated
      (processRepo C2repo C2sp C2tp C2dp false false
        (processRepo C2repo C2sp C2tp C2dp false false C2fs).fs).testOut = 0 := by
  have h := C2_second_run_idempotent C2repo C2sp C2tp C2dp false C2fs
    (by decide) (by decide) (by decide) (by decide) (by decide)
    (by decide) (by decide) (by decide)
  exact ⟨h.1, h.2.2.2.1⟩

end Propagate

/-! ## C6: per-file error isolation -/

namespace Propagate

theorem processRepos_names (sp tp dp : List (String × FPath)) (isMacos dry : Bool) :
    ∀ (repos : List FPath) (fs : FS),
      (processRepos repos sp tp dp isMacos dry fs).1.map Prod.fst = repos := by
  intro repos
  induction repos with
  | nil =>
    intro fs
    rfl
  | cons repo rest ih =>
    intro fs
    rw [processRepos]
    by_cases hr : is_repo_dir repo fs = true
    · rw [if_pos hr]
      dsimp only
      rw [List.map_cons, ih]
    · rw [if_neg hr]
      dsimp only
      rw [List.map_cons, ih]

/-- C6: errors are isolated per file.  A failing per-file synchronisation (the
comparison/copy reads a missing source and raises) is caught: it leaves the
filesystem unchanged, is recorded as an `err` outcome, adds exactly one to the
error counter, and the remaining files of the class are still processed from
the unchanged state; under a gate that never reports an error itself, the
outcome list always covers every file of the class and the error counter equals
the number of `err` outcomes; a whole per-repo run reports as its error counter
exactly the number of `err` outcomes over its three classes; and the repo loop
always completes its scan, producing one entry per collected repo (the summary
is printed from these accumulated counters). -/
theorem C6_error_isolation :
    (∀ (dry : Bool) (fs : FS) (src dst : FPath),
      (sync_file dry fs src dst).1 = SyncOutcome.err → (sync_file dry fs src dst).2 = fs)
    ∧ (∀ (dry : Bool) (g : FS → String → Option SyncOutcome) (dest : String → FPath)
        (f : String) (src : FPath) (rest : List (String × FPath)) (fs : FS),
        g fs f = none → dest f ≠ src → fsRead fs src = none →
        syncFold dry g dest ((f, src) :: rest) fs
          = ((f, SyncOutcome.err) :: (syncFold dry g dest rest fs).1,
             (syncFold dry g dest rest fs).2.1,
             1 + (syncFold dry g dest rest fs).2.2))
    ∧ (∀ (dry : Bool) (g : FS → String → Option SyncOutcome) (dest : String → FPath)
        (pairs : List (String × FPath)) (fs : FS),
        (∀ fsx f2 o, g fsx f2 = some o → o ≠ SyncOutcome.err) →
        (syncFold dry g dest pairs fs).1.map Prod.fst = pairs.map Prod.fst
        ∧ (syncFold dry g dest pairs fs).2.2
            = countO SyncOutcome.err (syncFold dry g dest pairs fs).1)
    ∧ (∀ (repo : FPath) (sp tp dp : List (String × FPath)) (isMacos dry : Bool) (fs : FS),
        (processRepo repo sp tp dp isMacos dry fs).errors
          = countO SyncOutcome.err (processRepo repo sp tp dp isMacos dry fs).styleOut
            + countO SyncOutcome.err (processRepo repo sp tp dp isMacos dry fs).testOut
            + countO SyncOutcome.err (processRepo repo sp tp dp isMacos dry fs).develOut)
    ∧ (∀ (repos : List FPath) (sp tp dp : List (String × FPath)) (isMacos dry : Bool)
        (fs : FS),
        (processRepos repos sp tp dp isMacos dry fs).1.map Prod.fst = repos) := by
  refine ⟨?_, ?_, ?_, ?_, ?_⟩
  · intro dry fs src dst h
    rw [sync_file] at h ⊢
    by_cases hd : dst = src
    · rw [if_pos hd]
    · rw [if_neg hd] at h ⊢
      cases hs : fsRead fs src with
      | none =>
        rfl
      | some sc =>
        rw [hs] at h
        cases hdd : fsRead fs dst with
        | none =>
          rw [hdd] at h
          dsimp only at h
          exact absurd h (by decide)
        | some dc =>
          rw [hdd] at h
          dsimp only at h
          by_cases he : sc = dc
          · rw [if_pos he] at h
            dsimp only at h
            exact absurd h (by decide)
          · rw [if_neg he] at h
            dsimp only at h
            exact absurd h (by decide)
  · intro dry g dest f src rest fs hg hne hsrc
    have hsf : sync_file dry fs src (dest f) = (SyncOutcome.err, fs) := by
      rw [sync_file, if_neg hne, hsrc]
    rw [syncFold, hg]
    dsimp only
    rw [hsf]
    dsimp only
    rw [if_pos rfl]
  · intro dry g dest pairs fs hg
    exact ⟨syncFold_names dry g dest pairs fs, syncFold_errors dry g dest hg pairs fs⟩
  · intro repo sp tp dp isMacos dry fs
    simp only [processRepo]
    set fs1 := (processGitignoreFS repo dry fs).2 with hfs1
    set fs2 := (conftestStep repo dry fs1).1 with hfs2
    set fs3 := (removeDeprecatedTestsFS repo dry fs2).1 with hfs3
    set fs4 := (changelogStep repo dry fs3).1 with hfs4
    set rs := syncFold dry (fun _ _ => none) (styleDest repo) sp fs4 with hrs
    set repoPy := repo_has_python_files repo rs.2.1 with hrepoPy
    set rt := syncFold dry
        (fun _ f => if strStartsWith f "test_" && strEndsWith f ".py" && !repoPy
          then some SyncOutcome.skipNoPython else none)
        (testDest repo) tp rs.2.1 with hrt
    set rd := syncFold dry
        (fun fsc f => if decide (f = "submit_to_pypi.py")
            && !(repo_has_pyproject_toml repo fsc)
          then some SyncOutcome.skipNoPyproject else none)
        (develDest repo) dp rt.2.1 with hrd
    have e1 : rs.2.2 = countO SyncOutcome.err rs.1 := by
      rw [hrs]
      exact syncFold_errors dry (fun _ _ => none) (styleDest repo)
        (fun fsx f2 o h => by cases h) sp fs4
    have e2 : rt.2.2 = countO SyncOutcome.err rt.1 := by
      rw [hrt]
      refine syncFold_errors dry _ (testDest repo) ?_ tp rs.2.1
      intro fsx f2 o h
      by_cases hc : (strStartsWith f2 "test_" && strEndsWith f2 ".py" && !repoPy) = true
      · rw [if_pos hc] at h
        injection h with h2
        rw [← h2]
        decide
      · rw [if_neg hc] at h
        cases h
    have e3 : rd.2.2 = countO SyncOutcome.err rd.1 := by
      rw [hrd]
      refine syncFold_errors dry _ (develDest repo) ?_ dp rt.2.1
      intro fsx f2 o h
      by_cases hc : (decide (f2 = "submit_to_pypi.py")
          && !(repo_has_pyproject_toml repo fsx)) = true
      · rw [if_pos hc] at h
        injection h with h2
        rw [← h2]
        decide
      · rw [if_neg hc] at h
        cases h
    rw [e1, e2, e3]
  · intro repos sp tp dp isMacos dry fs
    exact processRepos_names sp tp dp isMacos dry repos fs

/-- Witness for C6: synchronising against a missing source classifies the file
as an error and leaves the (empty) filesystem unchanged. -/
theorem C6_witness :
    (sync_file false ([] : FS) ["missing_src.py"] ["repo", "docs", "a.md"]).1
        = SyncOutcome.err
    ∧ (sync_file false ([] : FS) ["missing_src.py"] ["repo", "docs", "a.md"]).2 = [] :=
  ⟨by decide,
   C6_error_isolation.1 false [] ["missing_src.py"] ["repo", "docs", "a.md"] (by decide)⟩

end Propagate

/-! ## C7, C8, C10: the lint checkers -/

namespace Propagate

theorem classifyInitStmt_docstring {node : PyStmt}
    (h : is_module_docstring node = true) : classifyInitStmt node = none := by
  rw [classifyInitStmt, if_pos h]

theorem initStep_eq (issues : List (Nat × String)) (node : PyStmt) :
    initStep issues node = issues ++ (classifyInitStmt node).toList := by
  rw [initStep, classifyInitStmt]
  by_cases hd : is_module_docstring node = true
  · rw [if_pos hd, if_pos hd]
    exact (List.append_nil issues).symm
  · rw [if_neg hd, if_neg hd]
    cases node with
    | exprStmt l b => rfl
    | importStmt l => rfl
    | defStmt l => rfl
    | ifStmt l => rfl
    | otherStmt l => rfl
    | assignStmt l ts =>
      dsimp only
      by_cases h1 : (extract_target_names (PyStmt.assignStmt l ts)).contains
          "__version__" = true
      · rw [if_pos h1, if_pos h1]
        rfl
      · rw [if_neg h1, if_neg h1]
        by_cases h2 : (extract_target_names (PyStmt.assignStmt l ts)).contains
            "__all__" = true
        · rw [if_pos h2, if_pos h2]
          rfl
        · rw [if_neg h2, if_neg h2]
          by_cases h3 : (extract_target_names (PyStmt.assignStmt l ts)).any
              (fun name => containsSub "EXPORTED_MODULES".data name.data) = true
          · rw [if_pos h3, if_pos h3]
            rfl
          · rw [if_neg h3, if_neg h3]
            by_cases h4 : (extract_target_names (PyStmt.assignStmt l ts)).any
                (fun name => strEndsWith name "_MAP") = true
            · rw [if_pos h4, if_pos h4]
              rfl
            · rw [if_neg h4, if_neg h4]
              rfl

theorem initFold_eq : ∀ (body : List PyStmt) (acc : List (Nat × String)),
    List.foldl initStep acc body = acc ++ body.filterMap classifyInitStmt := by
  intro body
  induction body with
  | nil =>
    intro acc
    rw [List.foldl_nil, List.filterMap_nil, List.append_nil]
  | cons x rest ih =>
    intro acc
    rw [List.foldl_cons, initStep_eq, ih]
    cases hcx : classifyInitStmt x with
    | none => simp [List.filterMap_cons, hcx]
    | some i => simp [List.filterMap_cons, hcx]

theorem relStep_eq (found : List (Nat × String)) (node : AstNode) :
    relStep found node = found ++ (relClassify node).toList := by
  cases node with
  | otherNode =>
    dsimp only [relStep, relClassify]
    exact (List.append_nil found).symm
  | importFrom n =>
    dsimp only [relStep, relClassify]
    by_cases h : n.level ≤ 0
    · rw [if_pos h, if_neg (by omega : ¬ 0 < n.level)]
      exact (List.append_nil found).symm
    · rw [if_neg h, if_pos (by omega : 0 < n.level)]
      rfl

theorem relFold_eq : ∀ (nodes : List AstNode) (acc : List (Nat × String)),
    List.foldl relStep acc nodes = acc ++ nodes.filterMap relClassify := by
  intro nodes
  induction nodes with
  | nil =>
    intro acc
    rw [List.foldl_nil, List.filterMap_nil, List.append_nil]
  | cons x rest ih =>
    intro acc
    rw [List.foldl_cons, relStep_eq, ih]
    cases hcx : relClassify x with
    | none => simp [List.filterMap_cons, hcx]
    | some i => simp [List.filterMap_cons, hcx]

/-- C7: the `__init__.py` shape checker.  (1) A file whose parsed body is
exactly one string-literal expression statement yields no finding, whatever
the file size.  (2) A file above the minimum-size threshold (at least 20
substantive lines or at least 100 stripped characters) whose only top-level
statement assigns `__version__` yields exactly one finding, at that
statement's (defaulted) line, with the `__version__` message — which mentions
`__version__`.  (3) A file below both minimums yields no findings at all,
whatever its parse. -/
theorem C7_init_checker :
    (∀ (source : Content) (n : Nat),
      find_init_issues source (Except.ok [PyStmt.exprStmt n true]) = [])
    ∧ (∀ (source : Content) (line : Nat) (targets : List (Option String)),
        (count_substantive_lines source ≥ 20 ∨ (stripLine source).length ≥ 100) →
        (targets.filterMap id).contains "__version__" = true →
        find_init_issues source (Except.ok [PyStmt.assignStmt line targets])
            = [(pyLine line, MSG_VERSION)]
        ∧ containsSub "__version__".data MSG_VERSION.data = true)
    ∧ (∀ (source : Content) (parsed : Except Nat (List PyStmt)),
        count_substantive_lines source < 20 → (stripLine source).length < 100 →
        find_init_issues source parsed = []) := by
  refine ⟨?_, ?_, ?_⟩
  · intro source n
    rw [find_init_issues]
    cases hsc : should_check_file source <;> rfl
  · intro source line targets H hv
    have hsc : should_check_file source = true := by
      rw [should_check_file]
      rcases H with h | h
      · rw [if_pos h]
      · by_cases h20 : count_substantive_lines source ≥ 20
        · rw [if_pos h20]
        · rw [if_neg h20, if_pos h]
    refine ⟨?_, by decide⟩
    rw [find_init_issues, hsc]
    show List.foldl initStep [] [PyStmt.assignStmt line targets]
        = [(pyLine line, MSG_VERSION)]
    rw [List.foldl_cons, List.foldl_nil, initStep_eq]
    have hcl : classifyInitStmt (PyStmt.assignStmt line targets)
        = some (pyLine line, MSG_VERSION) := by
      rw [classifyInitStmt,
        if_neg (fun hcon => absurd hcon (by exact fun hcon2 => Bool.false_ne_true hcon2))]
      dsimp only
      have hv2 : (extract_target_names (PyStmt.assignStmt line targets)).contains
          "__version__" = true := hv
      rw [if_pos hv2]
      rfl
    rw [hcl]
    rfl
  · intro source parsed h20 h100
    have hsc : should_check_file source = false := by
      rw [should_check_file, if_neg (by omega), if_neg (by omega)]
    rw [find_init_issues.eq_def, hsc]
    rfl

/-- Witness for C7: a 120-character file whose single statement assigns
`__version__` yields exactly the `__version__` finding at its line. -/
theorem C7_witness :
    (count_substantive_lines C7src ≥ 20 ∨ (stripLine C7src).length ≥ 100)
    ∧ ([some "__version__"].filterMap id).contains "__version__" = true
    ∧ find_init_issues C7src (Except.ok [PyStmt.assignStmt 3 [some "__version__"]])
        = [(3, MSG_VERSION)] := by
  have h := C7_init_checker.2.1 C7src 3 [some "__version__"]
    (Or.inr (by decide)) (by decide)
  exact ⟨Or.inr (by decide), by decide, h.1⟩

/-- C8: the relative-import detector flags exactly the from-import statements
with relative level greater than zero, each with its line number and the
reconstructed dotted reference; `from . import x` (level 1, no module) is
flagged with reference `"."`; an absolute import such as `from os import
path` (level 0) yields no finding; a file that fails to parse yields no
findings. -/
theorem C8_relative_import_detector :
    (∀ nodes : List AstNode,
      find_relative_imports (some nodes) = nodes.filterMap relClassify)
    ∧ find_relative_imports none = []
    ∧ (∀ l : Nat,
        find_relative_imports (some [AstNode.importFrom ⟨l, 1, none⟩]) = [(l, ".")])
    ∧ find_relative_imports (some [AstNode.importFrom ⟨1, 0, some "os"⟩]) = [] := by
  refine ⟨?_, rfl, ?_, rfl⟩
  · intro nodes
    rw [find_relative_imports]
    exact relFold_eq nodes []
  · intro l
    rfl

/-- C10: in the `__init__.py` checker every bare string-literal expression
statement is exempt at any position, not only as a leading docstring: for a
file above the size threshold, the findings are exactly the per-statement
classifications of its body, the classification of every string-literal
expression statement is `none`, and the classification of every other
statement is `some` finding at its line. -/
theorem C10_string_literal_exempt :
    (∀ (source : Content) (body : List PyStmt), should_check_file source = true →
      find_init_issues source (Except.ok body) = body.filterMap classifyInitStmt)
    ∧ (∀ node : PyStmt, is_module_docstring node = true → classifyInitStmt node = none)
    ∧ (∀ node : PyStmt, is_module_docstring node = false →
        ∃ msg : String, classifyInitStmt node = some (pyLine (stmtLine node), msg)) := by
  refine ⟨?_, ?_, ?_⟩
  · intro source body hsc
    rw [find_init_issues, hsc]
    rw [if_neg (by decide : ¬ ((!true) = true))]
    cases body with
    | nil => rfl
    | cons x rest =>
      show (if ((x :: rest).length == 1 && is_module_docstring (x :: rest).headI) = true
          then [] else List.foldl initStep [] (x :: rest))
          = List.filterMap classifyInitStmt (x :: rest)
      by_cases hg : ((x :: rest).length == 1 && is_module_docstring (x :: rest).headI)
          = true
      · rw [if_pos hg]
        rcases Bool.and_eq_true_iff.mp hg with ⟨hlen, hdoc⟩
        have hrest : rest = [] := by
          have hl : (x :: rest).length = 1 := by simpa using hlen
          rw [List.length_cons] at hl
          exact List.eq_nil_of_length_eq_zero (by omega)
        subst hrest
        have hnone : classifyInitStmt x = none := classifyInitStmt_docstring hdoc
        simp [List.filterMap_cons, hnone]
      · rw [if_neg hg]
        exact initFold_eq (x :: rest) []
  · intro node h
    exact classifyInitStmt_docstring h
  · intro node h
    have hneg : ¬ is_module_docstring node = true := by
      rw [h]
      exact Bool.false_ne_true
    cases node with
    | exprStmt l b =>
      exact ⟨MSG_IMPL, by rw [classifyInitStmt, if_neg hneg]⟩
    | importStmt l =>
      exact ⟨MSG_IMPORTS, by rw [classifyInitStmt, if_neg hneg]⟩
    | defStmt l =>
      exact ⟨MSG_DEFS, by rw [classifyInitStmt, if_neg hneg]⟩
    | ifStmt l =>
      exact ⟨MSG_COND, by rw [classifyInitStmt, if_neg hneg]⟩
    | otherStmt l =>
      exact ⟨MSG_IMPL, by rw [classifyInitStmt, if_neg hneg]⟩
    | assignStmt l ts =>
      rw [classifyInitStmt, if_neg hneg]
      dsimp only
      by_cases h1 : (extract_target_names (PyStmt.assignStmt l ts)).contains
          "__version__" = true
      · exact ⟨MSG_VERSION, by rw [if_pos h1]⟩
      · rw [if_neg h1]
        by_cases h2 : (extract_target_names (PyStmt.assignStmt l ts)).contains
            "__all__" = true
        · exact ⟨MSG_ALL, by rw [if_pos h2]⟩
        · rw [if_neg h2]
          by_cases h3 : (extract_target_names (PyStmt.assignStmt l ts)).any
              (fun name => containsSub "EXPORTED_MODULES".data name.data) = true
          · exact ⟨MSG_EXPORTS, by rw [if_pos h3]⟩
          · rw [if_neg h3]
            by_cases h4 : (extract_target_names (PyStmt.assignStmt l ts)).any
                (fun name => strEndsWith name "_MAP") = true
            · exact ⟨MSG_MAPS, by rw [if_pos h4]⟩
            · rw [if_neg h4]
              exact ⟨MSG_GLOBAL, rfl⟩

set_option maxRecDepth 4000 in
/-- Witness for C10: a 130-character file whose body interleaves two
string-literal expressions with an assignment and an import is flagged only
at the assignment and the import. -/
theorem C10_witness :
    should_check_file C10src = true
    ∧ find_init_issues C10src (Except.ok
        [PyStmt.exprStmt 1 true, PyStmt.assignStmt 2 [some "x"],
         PyStmt.exprStmt 3 true, PyStmt.importStmt 4])
      = [(2, MSG_GLOBAL), (4, MSG_IMPORTS)] := by
  have h := C10_string_literal_exempt.1 C10src
    [PyStmt.exprStmt 1 true, PyStmt.assignStmt 2 [some "x"],
     PyStmt.exprStmt 3 true, PyStmt.importStmt 4] (by decide)
  refine ⟨by decide, ?_⟩
  rw [h]
  decide

end Propagate

/-! ## C9: the AGENTS.md maintainer never removes lines -/

namespace Propagate

theorem joinList_append (a b : List Content) :
    joinList (a ++ b) = joinList a ++ joinList b := by
  induction a with
  | nil => rfl
  | cons x rest ih =>
    show x ++ joinList (rest ++ b) = (x ++ joinList rest) ++ joinList b
    rw [ih, List.append_assoc]

theorem splitKeepEnds_newline_cons (rest : Content) :
    splitKeepEnds ('\n' :: rest) = ['\n'] :: splitKeepEnds rest := by
  cases hr : splitNewlines rest with
  | nil => exact absurd hr (splitNewlines_ne_nil rest)
  | cons l ls =>
    dsimp only [splitKeepEnds]
    rw [splitNewlines_cons, hr]
    dsimp only
    rw [if_pos rfl]
    simp only [List.dropLast_cons₂, List.map_cons, List.getLastD_eq_getLast?,
      List.getLast?_cons_cons, List.cons_append, List.nil_append]

theorem splitKeepEnds_cons_ne (ch : Char) (rest : Content) (hch : ¬ ch = '\n') :
    splitKeepEnds (ch :: rest)
      = match splitKeepEnds rest with
        | [] => [[ch]]
        | x :: xs => (ch :: x) :: xs := by
  cases hr : splitNewlines rest with
  | nil => exact absurd hr (splitNewlines_ne_nil rest)
  | cons l ls =>
    dsimp only [splitKeepEnds]
    rw [splitNewlines_cons, hr]
    dsimp only
    rw [if_neg hch]
    cases ls with
    | nil =>
      simp only [List.dropLast_single, List.map_nil, List.nil_append,
        List.getLastD_eq_getLast?, List.getLast?_singleton, Option.getD_some]
      rw [if_neg (List.cons_ne_nil ch l)]
      by_cases hl : l = []
      · subst hl
        rfl
      · rw [if_neg hl]
    | cons l2 ls2 =>
      simp only [List.dropLast_cons₂, List.map_cons, List.getLastD_eq_getLast?,
        List.getLast?_cons_cons, List.cons_append]

theorem joinList_splitKeepEnds : ∀ c : Content, joinList (splitKeepEnds c) = c := by
  intro c
  induction c with
  | nil => rfl
  | cons ch rest ih =>
    by_cases hch : ch = '\n'
    · subst hch
      rw [splitKeepEnds_newline_cons]
      show ['\n'] ++ joinList (splitKeepEnds rest) = '\n' :: rest
      rw [ih]
      rfl
    · rw [splitKeepEnds_cons_ne ch rest hch]
      cases hk : splitKeepEnds rest with
      | nil =>
        rw [hk] at ih
        have hre : rest = [] := by
          rw [← ih]
          rfl
        rw [hre]
        rfl
      | cons x xs =>
        rw [hk] at ih
        show (ch :: x) ++ joinList xs = ch :: rest
        rw [← ih]
        rfl

theorem insert_env_decomp (ins : List Content) :
    ∀ (ls r2 : List Content), insert_after_environment_header ins ls = some r2 →
      ∃ k, r2 = ls.take k ++ ins ++ ls.drop k := by
  intro ls
  induction ls with
  | nil =>
    intro r2 h
    cases h
  | cons l rest ih =>
    intro r2 h
    rw [insert_after_environment_header] at h
    by_cases hl : stripLine l = "## Environment".data
    · rw [if_pos hl] at h
      injection h with h2
      refine ⟨1, ?_⟩
      rw [← h2]
      rfl
    · rw [if_neg hl] at h
      cases hrec : insert_after_environment_header ins rest with
      | none =>
        rw [hrec] at h
        cases h
      | some r3 =>
        rw [hrec] at h
        injection h with h2
        rcases ih r3 hrec with ⟨k, hk⟩
        refine ⟨k + 1, ?_⟩
        rw [← h2, hk]
        rfl

theorem refPass_noop {fn des l : Content} (h : (refPass fn des l).2 = false) :
    (refPass fn des l).1 = l := by
  rw [refPass] at h ⊢
  by_cases h1 : des = fn
  · rw [if_pos h1]
  · rw [if_neg h1] at h ⊢
    by_cases h2 : (containsSub fn l && !containsSub des l) = true
    · rw [if_pos h2] at h
      dsimp only at h
      cases h
    · rw [if_neg h2]

theorem chgPass_noop {l : Content} (h : (chgPass l).2 = false) : (chgPass l).1 = l := by
  rw [chgPass] at h ⊢
  by_cases h2 : (containsSub "CHANGELOG.md".data l
      && !containsSub "docs/CHANGELOG.md".data l) = true
  · rw [if_pos h2] at h
    dsimp only at h
    cases h
  · rw [if_neg h2]

theorem agentsRewrite_noop {p m r : Content} {ls : List Content}
    (h : agentsRewriteChanged p m r ls = false) :
    ls.map (agentsRewriteLine p m r) = ls := by
  rw [agentsRewriteChanged] at h
  simp only [Bool.or_eq_false_iff, List.any_eq_false, Bool.not_eq_true] at h
  obtain ⟨⟨⟨h1, h2⟩, h3⟩, h4⟩ := h
  have helt : ∀ l ∈ ls, agentsRewriteLine p m r l = l := by
    intro l hl
    rw [agentsRewriteLine]
    rw [chgPass_noop (h4 _ (List.mem_map_of_mem _ hl)),
      refPass_noop (h3 _ (List.mem_map_of_mem _ hl)),
      refPass_noop (h2 _ (List.mem_map_of_mem _ hl)),
      refPass_noop (h1 _ hl)]
  calc ls.map (agentsRewriteLine p m r) = ls.map id := List.map_congr_left helt
    _ = ls := List.map_id ls

end Propagate

namespace Propagate

/-- C9: the agent-instructions maintainer never removes a line.  A real run
(`dry_run=False`) over an existing AGENTS.md either reports no modification
and leaves the content untouched, or produces exactly the original lines —
each rewritten in place by the stale-reference passes — in original order,
with a block of lines inserted at one position (after an existing
`## Environment` header) and lines appended at the end; in particular the
line count never decreases: it grows by exactly the inserted and appended
lines. -/
theorem C9_agents_never_removes_lines (content p m r : Content) (isMacos : Bool) :
    ((ensure_agents_coding_style content p m r isMacos false).1 = false →
      (ensure_agents_coding_style content p m r isMacos false).2 = content)
    ∧ ∃ (k : Nat) (ins app : List Content),
        (ensure_agents_coding_style content p m r isMacos false).2
          = joinList
              ((((splitKeepEnds content).map (agentsRewriteLine p m r)).take k
                ++ ins
                ++ ((splitKeepEnds content).map (agentsRewriteLine p m r)).drop k)
                ++ app)
        ∧ ((((splitKeepEnds content).map (agentsRewriteLine p m r)).take k
            ++ ins
            ++ ((splitKeepEnds content).map (agentsRewriteLine p m r)).drop k)
            ++ app).length
          = (splitKeepEnds content).length + ins.length + app.length := by
  have hlen : ∀ (k : Nat) (ins app : List Content),
      ((((splitKeepEnds content).map (agentsRewriteLine p m r)).take k
        ++ ins
        ++ ((splitKeepEnds content).map (agentsRewriteLine p m r)).drop k)
        ++ app).length
      = (splitKeepEnds content).length + ins.length + app.length := by
    intro k ins app
    simp only [List.length_append, List.length_take, List.length_drop, List.length_map]
    omega
  have main :
      (ensure_agents_coding_style content p m r isMacos false = (false, content)
        ∧ agentsRewriteChanged p m r (splitKeepEnds content) = false)
      ∨ ∃ (k : Nat) (ins app : List Content),
          (ensure_agents_coding_style content p m r isMacos false).1 = true
          ∧ (ensure_agents_coding_style content p m r isMacos false).2
            = joinList
                ((((splitKeepEnds content).map (agentsRewriteLine p m r)).take k
                  ++ ins
                  ++ ((splitKeepEnds content).map (agentsRewriteLine p m r)).drop k)
                  ++ app) := by
    rw [ensure_agents_coding_style]
    dsimp only
    set L := splitKeepEnds content with hLdef
    set L1 := L.map (agentsRewriteLine p m r) with hL1def
    set chg := agentsRewriteChanged p m r L with hchgdef
    set upd := joinList L1 with hupddef
    set lta := agentsLinesToAdd p m r upd with hltadef
    set env := agentsEnvLines upd isMacos with henvdef
    set hdr := containsSub "## Environment".data upd with hhdrdef
    have plain : ∀ ltaF : List Content,
        ((if ltaF = [] ∧ chg = false then ((false : Bool), content)
          else if false = true then ((true : Bool), content)
          else if ltaF ≠ [] then
            ((true : Bool), joinList L1
              ++ (if 0 < (joinList L1).length ∧ endsNL (joinList L1) = false
                  then ['\n'] else [])
              ++ joinList ltaF)
          else ((true : Bool), joinList L1))
            = (false, content) ∧ chg = false)
        ∨ ∃ (k : Nat) (ins app : List Content),
            (if ltaF = [] ∧ chg = false then ((false : Bool), content)
              else if false = true then ((true : Bool), content)
              else if ltaF ≠ [] then
                ((true : Bool), joinList L1
                  ++ (if 0 < (joinList L1).length ∧ endsNL (joinList L1) = false
                      then ['\n'] else [])
                  ++ joinList ltaF)
              else ((true : Bool), joinList L1)).1 = true
            ∧ (if ltaF = [] ∧ chg = false then ((false : Bool), content)
              else if false = true then ((true : Bool), content)
              else if ltaF ≠ [] then
                ((true : Bool), joinList L1
                  ++ (if 0 < (joinList L1).length ∧ endsNL (joinList L1) = false
                      then ['\n'] else [])
                  ++ joinList ltaF)
              else ((true : Bool), joinList L1)).2
              = joinList (((L1.take k ++ ins) ++ L1.drop k) ++ app) := by
      intro ltaF
      by_cases hNo : ltaF = [] ∧ chg = false
      · rw [if_pos hNo]
        exact Or.inl ⟨rfl, hNo.2⟩
      · rw [if_neg hNo, if_neg (by decide : ¬ (false = true))]
        have hA : ((L1.take 0 ++ ([] : List Content)) ++ L1.drop 0) = L1 := by simp
        by_cases hLta : ltaF ≠ []
        · rw [if_pos hLta]
          by_cases hnn : 0 < (joinList L1).length ∧ endsNL (joinList L1) = false
          · refine Or.inr ⟨0, [], [['\n']] ++ ltaF, rfl, ?_⟩
            dsimp only
            rw [if_pos hnn, hA, joinList_append L1 ([['\n']] ++ ltaF),
              joinList_append [['\n']] ltaF,
              show joinList [['\n']] = ['\n'] from rfl, List.append_assoc]
          · refine Or.inr ⟨0, [], ltaF, rfl, ?_⟩
            dsimp only
            rw [if_neg hnn, hA, joinList_append L1 ltaF, List.append_nil]
        · rw [if_neg hLta]
          refine Or.inr ⟨0, [], [], rfl, ?_⟩
          dsimp only
          rw [List.append_nil, hA]
    by_cases hE : env ≠ []
    · rw [if_pos hE]
      by_cases hH : hdr = true
      · rw [if_pos hH]
        cases hIns : insert_after_environment_header env L1 with
        | some r2 =>
          dsimp only
          rw [if_neg (fun hno => by cases hno.2), if_neg (by decide : ¬ (false = true))]
          obtain ⟨k, hk⟩ := insert_env_decomp env L1 r2 hIns
          by_cases hLta : lta ≠ []
          · rw [if_pos hLta]
            by_cases hnn : 0 < (joinList r2).length ∧ endsNL (joinList r2) = false
            · refine Or.inr ⟨k, env, [['\n']] ++ lta, rfl, ?_⟩
              dsimp only
              rw [if_pos hnn, ← hk, joinList_append r2 ([['\n']] ++ lta),
                joinList_append [['\n']] lta,
                show joinList [['\n']] = ['\n'] from rfl, List.append_assoc]
            · refine Or.inr ⟨k, env, lta, rfl, ?_⟩
              dsimp only
              rw [if_neg hnn, ← hk, joinList_append r2 lta, List.append_nil]
          · rw [if_neg hLta]
            refine Or.inr ⟨k, env, [], rfl, ?_⟩
            dsimp only
            rw [List.append_nil, ← hk]
        | none =>
          dsimp only
          exact plain lta
      · rw [if_neg hH]
        dsimp only
        exact plain (lta ++ ["\n".data, environment_header_line] ++ env)
    · rw [if_neg hE]
      dsimp only
      exact plain lta
  rcases main with ⟨hres, hchg0⟩ | ⟨k, ins, app, hflag1, happ⟩
  · constructor
    · intro _
      rw [hres]
    · refine ⟨0, [], [], ?_, hlen 0 [] []⟩
      rw [hres]
      show content = _
      rw [agentsRewrite_noop hchg0]
      simp only [List.take_zero, List.drop_zero, List.nil_append, List.append_nil]
      exact (joinList_splitKeepEnds content).symm
  · constructor
    · intro hflag
      exact absurd (hflag1.symm.trans hflag) (by decide)
    · exact ⟨k, ins, app, happ, hlen k ins app⟩

set_option maxRecDepth 8000 in
/-- Witness for C9: an AGENTS.md that already contains every required line is
reported unmodified and left byte-identical. -/
theorem C9_witness :
    (ensure_agents_coding_style C9content "PYTHON_STYLE.md".data "MARKDOWN_STYLE.md".data
        "REPO_STYLE.md".data false false).1 = false
    ∧ (ensure_agents_coding_style C9content "PYTHON_STYLE.md".data "MARKDOWN_STYLE.md".data
        "REPO_STYLE.md".data false false).2 = C9content :=
  ⟨by decide,
   (C9_agents_never_removes_lines C9content "PYTHON_STYLE.md".data "MARKDOWN_STYLE.md".data
      "REPO_STYLE.md".data false).1 (by decide)⟩

end Propagate
